import Mathlib

/-!
# Jacobi solver (`openMP_Etore.c`, `openMP_sequencial_Etore.c`)

Shallow embedding of the solver pipeline: `pivotear`, `verificar_dominancia_diagonal`
(both programs), the Jacobi `do ... while` loop of `main`, `verificar_solucao`, and the
properties of the specification that concern them.

Modelling conventions
* `double` values are rationals: every statement is about exact arithmetic.  The
  quotient `(b[i] - soma) / A[i][i]` is the field quotient; where `A[i][i] = 0` the C
  program computes an infinity or a NaN and goes on, so for such inputs only the control
  flow of the model (which statements run, which entries are zero) is meaningful.
* The stopping metric and the residual check are what the program reports of an iterate
  that may hold infinities and NaN, so their properties are stated on a second embedding
  of the same loops over `Dbl` (finite, `+inf`, `-inf`, NaN), with the comparisons of C
  and the machine operations as a parameter (`Aritmetica`); `aritExata` is the instance
  without rounding used to evaluate concrete inputs.
* `double **A` is a map from a row index to a row (`Mat`), a `double *` vector is a
  map from an index to a value (`Vec`).  The rows are allocated separately in `main`,
  so exchanging two row pointers exchanges two rows.
* The dimension `N` (a `#define` in the source) is a parameter.
* Every `for` loop is a left fold over the list of its index values, in the order of
  the sequential program; `#pragma omp parallel for` loops are taken in index order.
  The parallel region of `verificar_solucao` takes its thread schedule as an argument.
* The `do ... while` loop is a function of a number of passes of fuel; with
  `MAX_ITERACOES + 1` passes it always returns (`laco_resultado`).
* The constants `1e-5`, `1e-3`, `1e-1` are the rationals 1/100000, 1/1000, 1/10.
-/

namespace Jacobi

/-- A vector `double *`. -/
abbrev Vec := Nat → ℚ

/-- A matrix `double **`: row index to row. -/
abbrev Mat := Nat → Vec

/-- The data mutated by `pivotear`: the matrix and the right-hand side. -/
structure Sistema where
  A : Mat
  b : Vec

/-- Inner loop of `pivotear` (lines 251-260): starting from `maxRow = i`,
`maxVal = fabs(A[i][i])`, scan `k = i+1 .. N-1`; the result is `(maxRow, maxVal)`. -/
def buscarPivo (N : Nat) (A : Mat) (i : Nat) : Nat × ℚ :=
  (List.range' (i + 1) (N - (i + 1))).foldl
    (fun (st : Nat × ℚ) (k : Nat) => if |A k i| > st.2 then (k, |A k i|) else st)
    (i, |A i i|)

/-- The exchange of lines 264-270: `A[i]` with `A[maxRow]` and `b[i]` with `b[maxRow]`,
as the three assignments of the source. -/
def trocar (s : Sistema) (i maxRow : Nat) : Sistema :=
  let tempLinha := s.A i
  let A1 := Function.update s.A i (s.A maxRow)
  let A2 := Function.update A1 maxRow tempLinha
  let tempB := s.b i
  let b1 := Function.update s.b i (s.b maxRow)
  let b2 := Function.update b1 maxRow tempB
  { A := A2, b := b2 }

/-- One pass of the outer loop body of `pivotear` (lines 251-271) for row `i`. -/
def pivotearPasso (N : Nat) (s : Sistema) (i : Nat) : Sistema :=
  let maxRow := (buscarPivo N s.A i).1
  if maxRow ≠ i then trocar s i maxRow else s

/-- The state of `pivotear` after the passes `0 .. n-1` of its outer loop. -/
def pivotearAte (N : Nat) (s : Sistema) (n : Nat) : Sistema :=
  (List.range n).foldl (pivotearPasso N) s

/-- The function `pivotear` (lines 249-274): passes `i = 0 .. N-1`. -/
def pivotear (N : Nat) (s : Sistema) : Sistema :=
  pivotearAte N s N

/-- The system `A x = b` on the indices `0 .. N-1`. -/
def Resolve (N : Nat) (s : Sistema) (x : Vec) : Prop :=
  ∀ i, i < N → (∑ j in Finset.range N, s.A i j * x j) = s.b i

instance (N : Nat) (s : Sistema) (x : Vec) : Decidable (Resolve N s x) := by
  unfold Resolve; infer_instance

/-- The search loop of `pivotear` after `n` of its iterations. -/
def buscarPivoAte (A : Mat) (i n : Nat) : Nat × ℚ :=
  (List.range' (i + 1) n).foldl
    (fun (st : Nat × ℚ) (k : Nat) => if |A k i| > st.2 then (k, |A k i|) else st)
    (i, |A i i|)

/-! ### Diagonal dominance check -/

/-- The inner loop of `verificar_dominancia_diagonal` (both programs): the value of
`soma_off_diagonal` for row `i`. -/
def somaOffDiagonal (N : Nat) (A : Mat) (i : Nat) : ℚ :=
  (List.range N).foldl
    (fun (soma_off_diagonal : ℚ) (j : Nat) =>
      if i ≠ j then soma_off_diagonal + |A i j| else soma_off_diagonal) 0

/-- The flag `dominante` after the row loop of the sequential program
(`openMP_sequencial_Etore.c`, lines 183-202); `true` is the C value 1. -/
def dominanteSeq (N : Nat) (A : Mat) : Bool :=
  (List.range N).foldl
    (fun (dominante : Bool) (i : Nat) =>
      let soma_off_diagonal := somaOffDiagonal N A i
      let diagonal := |A i i|
      if diagonal ≤ soma_off_diagonal then false else dominante) true

/-- The flag `dominante` after the row loop of the parallel program
(`openMP_Etore.c`, lines 209-230): the comparison sits inside `if (i < 5)`. -/
def dominantePar (N : Nat) (A : Mat) : Bool :=
  (List.range N).foldl
    (fun (dominante : Bool) (i : Nat) =>
      let soma_off_diagonal := somaOffDiagonal N A i
      let diagonal := |A i i|
      if i < 5 then
        if diagonal ≤ soma_off_diagonal then false else dominante
      else dominante) true

/-- How `verificar_dominancia_diagonal` ends: it returns to `main`, or it calls
`exit(EXIT_SUCCESS)`. -/
inductive Fluxo where
  | retorna
  | exit_success
  deriving DecidableEq, Repr

/-- The tail of `verificar_dominancia_diagonal` (lines 232-243 / 204-215): with the flag
set the function returns; otherwise it reads the reply `opc` and exits unless the reply
is `y` or `Y`. -/
def portao (dominante : Bool) (opc : Char) : Fluxo :=
  if dominante then Fluxo.retorna
  else if opc ≠ 'y' ∧ opc ≠ 'Y' then Fluxo.exit_success
  else Fluxo.retorna

/-- The function `verificar_dominancia_diagonal` of the parallel program; `opc` is the
character the prompt would read. -/
def verificar_dominancia_diagonal_par (N : Nat) (A : Mat) (opc : Char) : Fluxo :=
  portao (dominantePar N A) opc

/-- The variables of `main` that the Jacobi loop reads or writes. -/
structure Estado where
  A : Mat
  b : Vec
  x_atual : Vec
  x_proximo : Vec
  max_diff : ℚ
  iteracoes : Nat

/-- The initialisation loop (lines 57-61): `x_atual[i] = 0.0` for `i = 0 .. N-1`. -/
def inicializar (N : Nat) (x_atual : Vec) : Vec :=
  (List.range N).foldl (fun (x : Vec) (i : Nat) => Function.update x i 0) x_atual

/-- The inner loop of the update (lines 76-83): `soma` for row `i`. -/
def somaJacobi (N : Nat) (A : Mat) (x_atual : Vec) (i : Nat) : ℚ :=
  (List.range N).foldl
    (fun (soma : ℚ) (j : Nat) => if i ≠ j then soma + A i j * x_atual j else soma) 0

/-- The update loop (lines 74-85): writes `x_proximo[i]` for `i = 0 .. N-1`. -/
def calcularProximo (N : Nat) (A : Mat) (b x_atual x_proximo : Vec) : Vec :=
  (List.range N).foldl
    (fun (xp : Vec) (i : Nat) =>
      Function.update xp i ((b i - somaJacobi N A x_atual i) / A i i)) x_proximo

/-- The stopping-metric loop (lines 88-95): `max_diff` starts at 0 and is raised to every
larger `diff`. -/
def calcularMaxDiff (N : Nat) (x_proximo x_atual : Vec) : ℚ :=
  (List.range N).foldl
    (fun (max_diff : ℚ) (i : Nat) =>
      let diff := |x_proximo i - x_atual i|
      if diff > max_diff then diff else max_diff) 0

/-- The copy loop (lines 98-102): `x_atual[i] = x_proximo[i]` for `i = 0 .. N-1`. -/
def copiar (N : Nat) (x_proximo x_atual : Vec) : Vec :=
  (List.range N).foldl (fun (x : Vec) (i : Nat) => Function.update x i (x_proximo i)) x_atual

/-- One pass of the body of the `do ... while` loop up to `iteracoes++` (lines 72-104;
lines 57-88 of the sequential program are the same statements). -/
def iteracao (N : Nat) (e : Estado) : Estado :=
  let x_proximo := calcularProximo N e.A e.b e.x_atual e.x_proximo
  let max_diff := calcularMaxDiff N x_proximo e.x_atual
  let x_atual := copiar N x_proximo e.x_atual
  { A := e.A, b := e.b, x_atual := x_atual, x_proximo := x_proximo,
    max_diff := max_diff, iteracoes := e.iteracoes + 1 }

/-- The variables of `main` on entry to the loop: `x_atual` initialised, `iteracoes = 0`;
`x0`, `xp0` are the contents of the freshly allocated buffers and `md0` that of the
uninitialised `max_diff`. -/
def estadoInicial (N : Nat) (s : Sistema) (x0 xp0 : Vec) (md0 : ℚ) : Estado :=
  { A := s.A, b := s.b, x_atual := inicializar N x0, x_proximo := xp0,
    max_diff := md0, iteracoes := 0 }

/-- Lines 47-53 of the parallel `main`, with `s` the data read by `ler_dados`:
`pivotear`, then `verificar_dominancia_diagonal`; `none` when the program exits there,
otherwise the system the Jacobi loop works on. -/
def prepararPar (N : Nat) (s : Sistema) (opc : Char) : Option Sistema :=
  let s1 := pivotear N s
  match verificar_dominancia_diagonal_par N s1.A opc with
  | Fluxo.exit_success => none
  | Fluxo.retorna => some s1

/-- The parallel `main` from `ler_dados` to the end of the first pass of the loop body
(lines 47-104); `none` when the program has exited before the loop. -/
def primeiraIteracaoPar (N : Nat) (s : Sistema) (opc : Char) (x0 xp0 : Vec) (md0 : ℚ) :
    Option Estado :=
  (prepararPar N s opc).map (fun s1 => iteracao N (estadoInicial N s1 x0 xp0 md0))

/-! ### Control of the `do ... while` loop -/

/-- The constant `MAX_ITERACOES` of both programs. -/
def MAX_ITERACOES : Nat := 10000

/-- The constant `TOLERANCIA` of both programs, `1e-5` taken exactly. -/
def TOLERANCIA : ℚ := 1 / 100000

/-- What happens at the end of a pass of the loop body. -/
inductive Controle where
  | interrompe
  | repete
  | termina
  deriving DecidableEq, Repr

/-- The control statements that close a pass (lines 107-113 / 91-97), for a cap `maxIt`
and a tolerance `tol`: `if (iteracoes > maxIt)` prints the non-convergence message and
breaks (`interrompe`); otherwise `while (max_diff >= tol)` repeats the body (`repete`) or
leaves the loop (`termina`). -/
def controle (maxIt : Nat) (tol : ℚ) (e : Estado) : Controle :=
  if e.iteracoes > maxIt then Controle.interrompe
  else if e.max_diff ≥ tol then Controle.repete
  else Controle.termina

/-- The `do ... while` loop (lines 70-113 / 55-97) run for at most `fuel` passes.  The
result is the state on leaving the loop together with a flag that is `true` exactly when
the message "O método não convergiu ..." was printed; `none` when `fuel` passes did not
reach the end of the loop. -/
def laco (N maxIt : Nat) (tol : ℚ) : Nat → Estado → Option (Estado × Bool)
  | 0, _ => none
  | fuel + 1, e =>
    match controle maxIt tol (iteracao N e) with
    | Controle.interrompe => some (iteracao N e, true)
    | Controle.repete => laco N maxIt tol fuel (iteracao N e)
    | Controle.termina => some (iteracao N e, false)

/-- The loop of `main` with the constants of the source, given `MAX_ITERACOES + 1`
passes of fuel. -/
def jacobi (N : Nat) (e : Estado) : Option (Estado × Bool) :=
  laco N MAX_ITERACOES TOLERANCIA (MAX_ITERACOES + 1) e

/-! ### Residual verification (`verificar_solucao`) -/

/-- The inner loop of `verificar_solucao` (lines 288-291): the full row sum, `j = i`
included. -/
def somaLinha (N : Nat) (A : Mat) (x : Vec) (i : Nat) : ℚ :=
  (List.range N).foldl (fun (soma : ℚ) (j : Nat) => soma + A i j * x j) 0

/-- The work of one thread in the `omp for` loop (lines 285-296): `local_max` over the
row indices `bloco` handed to it. -/
def maxLocal (N : Nat) (A : Mat) (b x : Vec) (bloco : List Nat) : ℚ :=
  bloco.foldl
    (fun (local_max : ℚ) (i : Nat) =>
      let residuo := |somaLinha N A x i - b i|
      if residuo > local_max then residuo else local_max) 0

/-- The parallel region of `verificar_solucao` (lines 281-303): `blocos` lists, thread
by thread in the order in which the threads pass the critical section, the row indices
each thread handles; every thread merges its `local_max` into `max_residuo`. -/
def maxResiduo (N : Nat) (A : Mat) (b x : Vec) (blocos : List (List Nat)) : ℚ :=
  blocos.foldl
    (fun (max_residuo : ℚ) (bloco : List Nat) =>
      let local_max := maxLocal N A b x bloco
      if local_max > max_residuo then local_max else max_residuo) 0

/-- The three messages of lines 307-313. -/
inductive Classe where
  | excelente
  | boa
  | residuo_alto
  deriving DecidableEq, Repr

/-- The classification of lines 307-313, thresholds `1e-3` and `1e-1` taken exactly. -/
def classificar (max_residuo : ℚ) : Classe :=
  if max_residuo < 1 / 1000 then Classe.excelente
  else if max_residuo < 1 / 10 then Classe.boa
  else Classe.residuo_alto

/-- The arguments of `verificar_solucao` as they are after the call, with the residual
it printed and the message it chose. -/
structure Verificacao where
  A : Mat
  b : Vec
  x : Vec
  max_residuo : ℚ
  classe : Classe

/-- The function `verificar_solucao` (lines 279-315) under the thread schedule `blocos`:
nothing is assigned to `A`, `b` or `x`. -/
def verificar_solucao (N : Nat) (A : Mat) (b x : Vec) (blocos : List (List Nat)) :
    Verificacao :=
  let max_residuo := maxResiduo N A b x blocos
  { A := A, b := b, x := x, max_residuo := max_residuo, classe := classificar max_residuo }

/-- The contraction factor `rho` of the specification: the maximum over the rows
`i < N` of (sum over `j != i` of `|A[i][j]|`) / `|A[i][i]|` (0 when `N = 0`). -/
def rho (N : Nat) (A : Mat) : ℚ :=
  (List.range N).foldl
    (fun (m : ℚ) (i : Nat) =>
      if (∑ j in (Finset.range N).erase i, |A i j|) / |A i i| > m
      then (∑ j in (Finset.range N).erase i, |A i j|) / |A i i| else m) 0

/-- The largest off-diagonal row sum: the maximum over the rows `i < N` of the sum over
`j != i` of `|A[i][j]|` (0 when `N = 0`). -/
def maxSomaOff (N : Nat) (A : Mat) : ℚ :=
  (List.range N).foldl
    (fun (m : ℚ) (i : Nat) =>
      if (∑ j in (Finset.range N).erase i, |A i j|) > m
      then (∑ j in (Finset.range N).erase i, |A i j|) else m) 0

/-- The reduction rule of the source, `if (v > acc) acc = v`, started at 0 and applied to
the values `v i` for the indices `i` of `ordem`, in that order. -/
def dobraMax (v : Nat → ℚ) (ordem : List Nat) : ℚ :=
  ordem.foldl (fun (acc : ℚ) (i : Nat) => if v i > acc then v i else acc) 0

/-- A local maximum per block, merged block after block with the same rule from 0. -/
def mesclaMax (v : Nat → ℚ) (blocos : List (List Nat)) : ℚ :=
  blocos.foldl
    (fun (acc : ℚ) (bloco : List Nat) =>
      if dobraMax v bloco > acc then dobraMax v bloco else acc) 0

/-! ### The same loops on `double` values with infinities and NaN

The stopping metric and the residual check compare values with `>`, which is false
whenever an operand is NaN.  For the two properties that depend on it, the loops are
embedded a second time on values that may be infinite or NaN, with the machine
operations `+`, `-`, `*`, `/` taken as a parameter: whatever they round to, the loops
below are the statements of the source. -/

/-- A value of type `double`: a finite number, `+inf`, `-inf` or a NaN (the sign of a
zero is not kept). -/
inductive Dbl where
  | fin (q : ℚ)
  | pinf
  | ninf
  | nan
  deriving DecidableEq

/-- The C comparison `a > b` on doubles: false whenever an operand is NaN. -/
def dblGt (a b : Dbl) : Bool :=
  match a, b with
  | Dbl.fin p, Dbl.fin q => decide (p > q)
  | Dbl.fin _, Dbl.pinf => false
  | Dbl.fin _, Dbl.ninf => true
  | Dbl.fin _, Dbl.nan => false
  | Dbl.pinf, Dbl.fin _ => true
  | Dbl.pinf, Dbl.pinf => false
  | Dbl.pinf, Dbl.ninf => true
  | Dbl.pinf, Dbl.nan => false
  | Dbl.ninf, _ => false
  | Dbl.nan, _ => false

/-- The C comparison `a >= b` on doubles: false whenever an operand is NaN. -/
def dblGe (a b : Dbl) : Bool :=
  match a, b with
  | Dbl.fin p, Dbl.fin q => decide (p ≥ q)
  | Dbl.fin _, Dbl.pinf => false
  | Dbl.fin _, Dbl.ninf => true
  | Dbl.fin _, Dbl.nan => false
  | Dbl.pinf, Dbl.fin _ => true
  | Dbl.pinf, Dbl.pinf => true
  | Dbl.pinf, Dbl.ninf => true
  | Dbl.pinf, Dbl.nan => false
  | Dbl.ninf, Dbl.ninf => true
  | Dbl.ninf, _ => false
  | Dbl.nan, _ => false

/-- The C comparison `a < b` on doubles. -/
def dblLt (a b : Dbl) : Bool := dblGt b a

/-- The function `fabs`: exact, and `fabs(NaN)` is a NaN. -/
def dblFabs (a : Dbl) : Dbl :=
  match a with
  | Dbl.fin q => Dbl.fin |q|
  | Dbl.pinf => Dbl.pinf
  | Dbl.ninf => Dbl.pinf
  | Dbl.nan => Dbl.nan

/-- The four machine operations on doubles. -/
structure Aritmetica where
  soma : Dbl → Dbl → Dbl
  sub : Dbl → Dbl → Dbl
  mul : Dbl → Dbl → Dbl
  div : Dbl → Dbl → Dbl

/-- Negation. -/
def dblNeg (a : Dbl) : Dbl :=
  match a with
  | Dbl.fin q => Dbl.fin (-q)
  | Dbl.pinf => Dbl.ninf
  | Dbl.ninf => Dbl.pinf
  | Dbl.nan => Dbl.nan

/-- Addition without rounding: `inf + (-inf)` is a NaN. -/
def dblSoma (a b : Dbl) : Dbl :=
  match a, b with
  | Dbl.nan, _ => Dbl.nan
  | _, Dbl.nan => Dbl.nan
  | Dbl.fin p, Dbl.fin q => Dbl.fin (p + q)
  | Dbl.fin _, Dbl.pinf => Dbl.pinf
  | Dbl.fin _, Dbl.ninf => Dbl.ninf
  | Dbl.pinf, Dbl.fin _ => Dbl.pinf
  | Dbl.pinf, Dbl.pinf => Dbl.pinf
  | Dbl.pinf, Dbl.ninf => Dbl.nan
  | Dbl.ninf, Dbl.fin _ => Dbl.ninf
  | Dbl.ninf, Dbl.pinf => Dbl.nan
  | Dbl.ninf, Dbl.ninf => Dbl.ninf

/-- The sign of an infinite result: `+inf` when `positivo`, else `-inf`. -/
def dblInf (positivo : Bool) : Dbl := if positivo then Dbl.pinf else Dbl.ninf

/-- Multiplication without rounding: `0 * inf` is a NaN. -/
def dblMul (a b : Dbl) : Dbl :=
  match a, b with
  | Dbl.nan, _ => Dbl.nan
  | _, Dbl.nan => Dbl.nan
  | Dbl.fin p, Dbl.fin q => Dbl.fin (p * q)
  | Dbl.fin p, Dbl.pinf => if p = 0 then Dbl.nan else dblInf (decide (p > 0))
  | Dbl.fin p, Dbl.ninf => if p = 0 then Dbl.nan else dblInf (decide (p < 0))
  | Dbl.pinf, Dbl.fin q => if q = 0 then Dbl.nan else dblInf (decide (q > 0))
  | Dbl.ninf, Dbl.fin q => if q = 0 then Dbl.nan else dblInf (decide (q < 0))
  | Dbl.pinf, Dbl.pinf => Dbl.pinf
  | Dbl.pinf, Dbl.ninf => Dbl.ninf
  | Dbl.ninf, Dbl.pinf => Dbl.ninf
  | Dbl.ninf, Dbl.ninf => Dbl.pinf

/-- Division without rounding, a zero divisor taken as `+0`: `x / 0` is an infinity of
the sign of `x`, and `0 / 0` and `inf / inf` are NaN. -/
def dblDiv (a b : Dbl) : Dbl :=
  match a, b with
  | Dbl.nan, _ => Dbl.nan
  | _, Dbl.nan => Dbl.nan
  | Dbl.fin p, Dbl.fin q =>
    if q = 0 then (if p = 0 then Dbl.nan else dblInf (decide (p > 0))) else Dbl.fin (p / q)
  | Dbl.fin _, Dbl.pinf => Dbl.fin 0
  | Dbl.fin _, Dbl.ninf => Dbl.fin 0
  | Dbl.pinf, Dbl.fin q => dblInf (decide (q ≥ 0))
  | Dbl.ninf, Dbl.fin q => dblInf (decide (q < 0))
  | Dbl.pinf, Dbl.pinf => Dbl.nan
  | Dbl.pinf, Dbl.ninf => Dbl.nan
  | Dbl.ninf, Dbl.pinf => Dbl.nan
  | Dbl.ninf, Dbl.ninf => Dbl.nan

/-- The machine operations without rounding or overflow: they agree with the machine on
operands and results that are small integers, infinities or NaN. -/
def aritExata : Aritmetica :=
  { soma := dblSoma, sub := fun a b => dblSoma a (dblNeg b), mul := dblMul, div := dblDiv }

/-- A vector of doubles. -/
abbrev VecD := Nat → Dbl

/-- A matrix of doubles. -/
abbrev MatD := Nat → VecD

/-- The variables of `main` that the Jacobi loop reads or writes, as doubles. -/
structure EstadoD where
  A : MatD
  b : VecD
  x_atual : VecD
  x_proximo : VecD
  max_diff : Dbl
  iteracoes : Nat

/-- The initialisation loop (lines 57-61) on doubles. -/
def inicializarD (N : Nat) (x_atual : VecD) : VecD :=
  (List.range N).foldl (fun (x : VecD) (i : Nat) => Function.update x i (Dbl.fin 0)) x_atual

/-- The inner loop of the update (lines 76-83) on doubles. -/
def somaJacobiD (ar : Aritmetica) (N : Nat) (A : MatD) (x_atual : VecD) (i : Nat) : Dbl :=
  (List.range N).foldl
    (fun (soma : Dbl) (j : Nat) =>
      if i ≠ j then ar.soma soma (ar.mul (A i j) (x_atual j)) else soma) (Dbl.fin 0)

/-- The update loop (lines 74-85) on doubles. -/
def calcularProximoD (ar : Aritmetica) (N : Nat) (A : MatD) (b x_atual x_proximo : VecD) :
    VecD :=
  (List.range N).foldl
    (fun (xp : VecD) (i : Nat) =>
      Function.update xp i (ar.div (ar.sub (b i) (somaJacobiD ar N A x_atual i)) (A i i)))
    x_proximo

/-- The stopping-metric loop (lines 88-95) on doubles: a NaN `diff` fails the test
`diff > max_diff` and is skipped. -/
def calcularMaxDiffD (ar : Aritmetica) (N : Nat) (x_proximo x_atual : VecD) : Dbl :=
  (List.range N).foldl
    (fun (max_diff : Dbl) (i : Nat) =>
      let diff := dblFabs (ar.sub (x_proximo i) (x_atual i))
      if dblGt diff max_diff then diff else max_diff) (Dbl.fin 0)

/-- The copy loop (lines 98-102) on doubles. -/
def copiarD (N : Nat) (x_proximo x_atual : VecD) : VecD :=
  (List.range N).foldl (fun (x : VecD) (i : Nat) => Function.update x i (x_proximo i)) x_atual

/-- One pass of the loop body up to `iteracoes++` (lines 72-104) on doubles. -/
def iteracaoD (ar : Aritmetica) (N : Nat) (e : EstadoD) : EstadoD :=
  let x_proximo := calcularProximoD ar N e.A e.b e.x_atual e.x_proximo
  let max_diff := calcularMaxDiffD ar N x_proximo e.x_atual
  let x_atual := copiarD N x_proximo e.x_atual
  { A := e.A, b := e.b, x_atual := x_atual, x_proximo := x_proximo,
    max_diff := max_diff, iteracoes := e.iteracoes + 1 }

/-- The variables of `main` on entry to the loop, on doubles. -/
def estadoInicialD (N : Nat) (A : MatD) (b x0 xp0 : VecD) (md0 : Dbl) : EstadoD :=
  { A := A, b := b, x_atual := inicializarD N x0, x_proximo := xp0,
    max_diff := md0, iteracoes := 0 }

/-- The control statements that close a pass (lines 107-113) on doubles: the loop is
left by `while (max_diff >= tol)` as soon as the comparison is false. -/
def controleD (maxIt : Nat) (tol : Dbl) (e : EstadoD) : Controle :=
  if e.iteracoes > maxIt then Controle.interrompe
  else if dblGe e.max_diff tol then Controle.repete
  else Controle.termina

/-- The inner loop of `verificar_solucao` (lines 288-291) on doubles: every `j`. -/
def somaLinhaD (ar : Aritmetica) (N : Nat) (A : MatD) (x : VecD) (i : Nat) : Dbl :=
  (List.range N).foldl
    (fun (soma : Dbl) (j : Nat) => ar.soma soma (ar.mul (A i j) (x j))) (Dbl.fin 0)

/-- The value `residuo` of row `i` (line 292) on doubles. -/
def residuoD (ar : Aritmetica) (N : Nat) (A : MatD) (b x : VecD) (i : Nat) : Dbl :=
  dblFabs (ar.sub (somaLinhaD ar N A x i) (b i))

/-- The work of one thread (lines 285-296) on doubles: a NaN `residuo` fails the test
`residuo > local_max` and is skipped. -/
def maxLocalD (ar : Aritmetica) (N : Nat) (A : MatD) (b x : VecD) (bloco : List Nat) : Dbl :=
  bloco.foldl
    (fun (local_max : Dbl) (i : Nat) =>
      let residuo := residuoD ar N A b x i
      if dblGt residuo local_max then residuo else local_max) (Dbl.fin 0)

/-- The parallel region of `verificar_solucao` (lines 281-303) on doubles, under the
thread schedule `blocos`. -/
def maxResiduoD (ar : Aritmetica) (N : Nat) (A : MatD) (b x : VecD)
    (blocos : List (List Nat)) : Dbl :=
  blocos.foldl
    (fun (max_residuo : Dbl) (bloco : List Nat) =>
      let local_max := maxLocalD ar N A b x bloco
      if dblGt local_max max_residuo then local_max else max_residuo) (Dbl.fin 0)

/-- The classification of lines 307-313 on doubles. -/
def classificarD (max_residuo : Dbl) : Classe :=
  if dblLt max_residuo (Dbl.fin (1 / 1000)) then Classe.excelente
  else if dblLt max_residuo (Dbl.fin (1 / 10)) then Classe.boa
  else Classe.residuo_alto

/-- The arguments of `verificar_solucao` after the call, its residual and its message,
on doubles. -/
structure VerificacaoD where
  A : MatD
  b : VecD
  x : VecD
  max_residuo : Dbl
  classe : Classe

/-- The function `verificar_solucao` (lines 279-315) on doubles. -/
def verificar_solucaoD (ar : Aritmetica) (N : Nat) (A : MatD) (b x : VecD)
    (blocos : List (List Nat)) : VerificacaoD :=
  let max_residuo := maxResiduoD ar N A b x blocos
  { A := A, b := b, x := x, max_residuo := max_residuo,
    classe := classificarD max_residuo }

/-- A matrix of finite numbers as a matrix of doubles. -/
def matD (A : Mat) : MatD := fun i j => Dbl.fin (A i j)

/-- A vector of finite numbers as a vector of doubles. -/
def vecD (v : Vec) : VecD := fun i => Dbl.fin (v i)

/-! ### Concrete inputs -/

/-- The matrix whose rows are the given lists (0 outside them). -/
def matDe (l : List (List ℚ)) : Mat := fun i j => (l.getD i []).getD j 0

/-- The vector whose entries are the given list (0 outside it). -/
def vecDe (l : List ℚ) : Vec := fun i => l.getD i 0

/-- A 3x3 system whose column 0 has its maximum absolute value 2 in rows 1 and 2. -/
def sistemaEmpate : Sistema :=
  { A := matDe [[1, 0, 0], [-2, 5, 0], [2, 0, 7]], b := vecDe [10, 20, 30] }

/-- The identity matrix with the extra entry `A[5][6] = 2`: row 5 has diagonal 1 and
off-diagonal sum 2 in every dimension above 6. -/
def matLinha5 : Mat := fun i j => if i = j then 1 else if i = 5 ∧ j = 6 then 2 else 0

/-- A 2x2 system whose column 0 is zero. -/
def sistemaColunaNula : Sistema :=
  { A := matDe [[0, 1], [0, 1]], b := vecDe [1, 1] }

/-- The 6x6 identity system with `A[5][5]` replaced by 0. -/
def sistemaDiagonalNula : Sistema :=
  { A := fun i j => if i = j then (if i = 5 then 0 else 1) else 0, b := fun _ => 1 }

/-- A 2x2 system with non-zero entries in both columns. -/
def sistemaPequeno : Sistema :=
  { A := matDe [[1, 2], [-3, 4]], b := vecDe [5, 6] }

/-- The 2x2 system with unit diagonal, off-diagonal entries `r` and right-hand side
`(c, c)`. -/
def sistemaGeometrico (r c : ℚ) : Sistema :=
  { A := fun i j => if i = j then 1 else r, b := fun _ => c }

/-- The common value of the two entries of the Jacobi iterate of `sistemaGeometrico r c`
after `k` passes from zero. -/
def valorGeometrico (r c : ℚ) : Nat → ℚ
  | 0 => 0
  | k + 1 => c - r * valorGeometrico r c k

/-- A strictly diagonally dominant 2x2 system on which Jacobi contracts by the factor
`0.999999` per pass. -/
def sistemaLento : Sistema := sistemaGeometrico (999999 / 1000000) 1

/-- A strictly diagonally dominant 2x2 system whose `max_diff` is exactly `TOLERANCIA` at
pass 10000 and `0.999 * TOLERANCIA` at pass 10001. -/
def sistemaLimiar : Sistema :=
  sistemaGeometrico (999 / 1000) ((1000 / 999) ^ 9999 / 100000)

/-- A strictly diagonally dominant 2x2 system. -/
def sistemaDominante : Sistema :=
  { A := matDe [[2, 1], [1, 3]], b := vecDe [3, 5] }

/-- The loop variables with `sistemaDominante` and `x_atual` at its solution
`(4/5, 7/5)`. -/
def estadoSolucao : Estado :=
  { A := sistemaDominante.A, b := sistemaDominante.b, x_atual := vecDe [4 / 5, 7 / 5],
    x_proximo := vecDe [], max_diff := 1, iteracoes := 0 }

/-- The loop variables of the parallel program on entry to the loop for
`sistemaDiagonalNula` (which `pivotear` leaves unchanged), as doubles. -/
def estadoDiagonalNula : EstadoD :=
  estadoInicialD 6 (matD sistemaDiagonalNula.A) (vecD sistemaDiagonalNula.b)
    (vecD (vecDe [])) (vecD (vecDe [])) (Dbl.fin 0)

/-! ## Pivoting: the search loop -/

theorem buscarPivo_eq (N : Nat) (A : Mat) (i : Nat) :
    buscarPivo N A i = buscarPivoAte A i (N - (i + 1)) := rfl

theorem buscarPivoAte_succ (A : Mat) (i n : Nat) :
    buscarPivoAte A i (n + 1) =
      if |A (i + 1 + n) i| > (buscarPivoAte A i n).2
      then (i + 1 + n, |A (i + 1 + n) i|) else buscarPivoAte A i n := by
  simp only [buscarPivoAte, List.range'_concat, List.foldl_append, List.foldl_cons,
    List.foldl_nil, Nat.one_mul]

/-- Loop invariant of the search: the candidate is in the scanned range, `maxVal` is its
absolute value, every scanned row is at most `maxVal`, and every scanned row before the
candidate is strictly below it. -/
theorem buscarPivoAte_inv (A : Mat) (i n : Nat) :
    i ≤ (buscarPivoAte A i n).1 ∧ (buscarPivoAte A i n).1 ≤ i + n ∧
    (buscarPivoAte A i n).2 = |A (buscarPivoAte A i n).1 i| ∧
    (∀ k, i ≤ k → k ≤ i + n → |A k i| ≤ (buscarPivoAte A i n).2) ∧
    (∀ k, i ≤ k → k < (buscarPivoAte A i n).1 → |A k i| < (buscarPivoAte A i n).2) := by
  induction n with
  | zero =>
    refine ⟨le_refl _, le_refl _, rfl, ?_, ?_⟩
    · intro k h1 h2
      have hk : k = i := by omega
      subst hk
      exact le_refl _
    · intro k h1 h2
      have h3 : (buscarPivoAte A i 0).1 = i := rfl
      omega
  | succ n ih =>
    obtain ⟨h1, h2, h3, h4, h5⟩ := ih
    rw [buscarPivoAte_succ]
    by_cases hc : |A (i + 1 + n) i| > (buscarPivoAte A i n).2
    · rw [if_pos hc]
      refine ⟨by simp only; omega, by simp only; omega, rfl, ?_, ?_⟩
      · intro k hk1 hk2
        simp only
        rcases Nat.lt_or_ge k (i + 1 + n) with hlt | hge
        · exact le_trans (h4 k hk1 (by omega)) (le_of_lt hc)
        · have hk : k = i + 1 + n := by omega
          rw [hk]
      · intro k hk1 hk2
        simp only at hk2 ⊢
        exact lt_of_le_of_lt (h4 k hk1 (by omega)) hc
    · rw [if_neg hc]
      refine ⟨h1, by omega, h3, ?_, h5⟩
      intro k hk1 hk2
      rcases Nat.lt_or_ge k (i + 1 + n) with hlt | hge
      · exact h4 k hk1 (by omega)
      · have hk : k = i + 1 + n := by omega
        rw [hk]
        exact not_lt.mp hc

/-- The row chosen by the search for row `i < N`: within `i .. N-1`, of maximal absolute
value in column `i`, and the first such row. -/
theorem buscarPivo_spec (N : Nat) (A : Mat) (i : Nat) (hi : i < N) :
    i ≤ (buscarPivo N A i).1 ∧ (buscarPivo N A i).1 < N ∧
    (∀ k, i ≤ k → k < N → |A k i| ≤ |A (buscarPivo N A i).1 i|) ∧
    (∀ k, i ≤ k → k < (buscarPivo N A i).1 → |A k i| < |A (buscarPivo N A i).1 i|) := by
  obtain ⟨h1, h2, h3, h4, h5⟩ := buscarPivoAte_inv A i (N - (i + 1))
  rw [buscarPivo_eq]
  refine ⟨h1, by omega, ?_, ?_⟩
  · intro k hk1 hk2
    rw [← h3]
    exact h4 k hk1 (by omega)
  · intro k hk1 hk2
    rw [← h3]
    exact h5 k hk1 hk2

/-- Beyond the matrix the search loop is empty. -/
theorem buscarPivo_fora (N : Nat) (A : Mat) (i : Nat) (hi : N ≤ i) :
    (buscarPivo N A i).1 = i := by
  have h : N - (i + 1) = 0 := by omega
  rw [buscarPivo_eq, h]
  rfl

/-- When row `i` already attains the column maximum, the search keeps `maxRow = i`. -/
theorem buscarPivo_fixo (N : Nat) (A : Mat) (i : Nat)
    (h : ∀ k, i ≤ k → k < N → |A k i| ≤ |A i i|) : (buscarPivo N A i).1 = i := by
  rcases Nat.lt_or_ge i N with hi | hi
  · obtain ⟨h1, h2, _, h4⟩ := buscarPivo_spec N A i hi
    by_contra hne
    have hlt : i < (buscarPivo N A i).1 := by omega
    have := h4 i (le_refl _) hlt
    have := h _ h1 h2
    linarith
  · exact buscarPivo_fora N A i hi

/-! ## Pivoting: one pass is a transposition of rows -/

theorem trocar_A (s : Sistema) (i m r : Nat) :
    (trocar s i m).A r = s.A (Equiv.swap i m r) := by
  simp only [trocar, Function.update_apply, Equiv.swap_apply_def]
  by_cases h1 : r = m
  · subst h1
    by_cases h2 : r = i
    · subst h2
      simp
    · simp [h2]
  · by_cases h2 : r = i
    · subst h2
      simp [h1]
    · simp [h1, h2]

theorem trocar_b (s : Sistema) (i m r : Nat) :
    (trocar s i m).b r = s.b (Equiv.swap i m r) := by
  simp only [trocar, Function.update_apply, Equiv.swap_apply_def]
  by_cases h1 : r = m
  · subst h1
    by_cases h2 : r = i
    · subst h2
      simp
    · simp [h2]
  · by_cases h2 : r = i
    · subst h2
      simp [h1]
    · simp [h1, h2]

/-- One pass applies the transposition of `i` and the chosen row to `A` and to `b`. -/
theorem pivotearPasso_swap (N : Nat) (s : Sistema) (i : Nat) :
    (∀ r, (pivotearPasso N s i).A r = s.A (Equiv.swap i (buscarPivo N s.A i).1 r)) ∧
    (∀ r, (pivotearPasso N s i).b r = s.b (Equiv.swap i (buscarPivo N s.A i).1 r)) := by
  unfold pivotearPasso
  by_cases h : (buscarPivo N s.A i).1 = i
  · simp [h]
  · simp only [ne_eq, h, not_false_eq_true, if_true]
    exact ⟨trocar_A s i _, trocar_b s i _⟩

theorem pivotearAte_succ (N : Nat) (s : Sistema) (n : Nat) :
    pivotearAte N s (n + 1) = pivotearPasso N (pivotearAte N s n) n := by
  simp only [pivotearAte, List.range_succ, List.foldl_append, List.foldl_cons, List.foldl_nil]

/-- A pass that keeps `maxRow = i` changes nothing. -/
theorem pivotearPasso_fixo (N : Nat) (s : Sistema) (i : Nat)
    (h : (buscarPivo N s.A i).1 = i) : pivotearPasso N s i = s := by
  simp [pivotearPasso, h]

/-- The transposition of a pass keeps every index below `i` and every index from `N` on,
and sends `i .. N-1` into itself. -/
theorem troca_faixa (N : Nat) (A : Mat) (i : Nat) (r : Nat) :
    (r < i → Equiv.swap i (buscarPivo N A i).1 r = r) ∧
    (N ≤ r → Equiv.swap i (buscarPivo N A i).1 r = r) ∧
    (i ≤ r → r < N → i ≤ Equiv.swap i (buscarPivo N A i).1 r ∧
      Equiv.swap i (buscarPivo N A i).1 r < N) := by
  rcases Nat.lt_or_ge i N with hi | hi
  · obtain ⟨h1, h2, _, _⟩ := buscarPivo_spec N A i hi
    refine ⟨?_, ?_, ?_⟩
    · intro hr
      exact Equiv.swap_apply_of_ne_of_ne (by omega) (by omega)
    · intro hr
      exact Equiv.swap_apply_of_ne_of_ne (by omega) (by omega)
    · intro hr1 hr2
      rw [Equiv.swap_apply_def]
      split_ifs <;> omega
  · rw [buscarPivo_fora N A i hi, Equiv.swap_self]
    exact ⟨fun _ => rfl, fun _ => rfl, fun h1 h2 => ⟨h1, h2⟩⟩

/-! ## Pivoting: invariants of the outer loop -/

/-- After any number of passes, `A` and `b` are the initial ones composed with one
permutation of the row indices, which moves only indices below `N`. -/
theorem pivotearAte_perm (N : Nat) (s : Sistema) (n : Nat) :
    ∃ σ : Equiv.Perm ℕ, (∀ r, N ≤ r → σ r = r) ∧
      (∀ r, (pivotearAte N s n).A r = s.A (σ r)) ∧
      (∀ r, (pivotearAte N s n).b r = s.b (σ r)) := by
  induction n with
  | zero => exact ⟨Equiv.refl ℕ, fun _ _ => rfl, fun _ => rfl, fun _ => rfl⟩
  | succ n ih =>
    obtain ⟨σ, h1, h2, h3⟩ := ih
    obtain ⟨hA, hb⟩ := pivotearPasso_swap N (pivotearAte N s n) n
    refine ⟨(Equiv.swap n (buscarPivo N (pivotearAte N s n).A n).1).trans σ, ?_, ?_, ?_⟩
    · intro r hr
      rw [Equiv.trans_apply, (troca_faixa N _ n r).2.1 hr]
      exact h1 r hr
    · intro r
      rw [pivotearAte_succ, hA, h2, Equiv.trans_apply]
    · intro r
      rw [pivotearAte_succ, hb, h3, Equiv.trans_apply]

/-- A permutation that fixes every index from `N` on maps `0 .. N-1` onto itself, so a
property holds on all permuted indices below `N` iff it holds on all indices below `N`. -/
theorem forall_perm_iff (N : Nat) (σ : Equiv.Perm ℕ) (hσ : ∀ r, N ≤ r → σ r = r)
    (P : Nat → Prop) : (∀ i, i < N → P (σ i)) ↔ (∀ i, i < N → P i) := by
  have hlt : ∀ i, i < N → σ i < N := by
    intro i hi
    by_contra hge
    have h1 : σ (σ i) = σ i := hσ _ (by omega)
    have h2 : σ i = i := σ.injective h1
    omega
  have hlt_inv : ∀ i, i < N → σ.symm i < N := by
    intro i hi
    by_contra hge
    have h1 : σ (σ.symm i) = σ.symm i := hσ _ (by omega)
    rw [Equiv.apply_symm_apply] at h1
    omega
  constructor
  · intro h i hi
    have := h (σ.symm i) (hlt_inv i hi)
    rwa [Equiv.apply_symm_apply] at this
  · intro h i hi
    exact h (σ i) (hlt i hi)

/-- After `n` passes every diagonal entry of a row below `n` dominates its column from
the diagonal down. -/
theorem pivotearAte_domina (N : Nat) (s : Sistema) (n : Nat) :
    ∀ i, i < n → ∀ k, i ≤ k → k < N →
      |(pivotearAte N s n).A k i| ≤ |(pivotearAte N s n).A i i| := by
  induction n with
  | zero => intro i hi; omega
  | succ n ih =>
    intro i hi k hk1 hk2
    obtain ⟨hA, _⟩ := pivotearPasso_swap N (pivotearAte N s n) n
    rw [pivotearAte_succ, hA k, hA i]
    have hfk := troca_faixa N (pivotearAte N s n).A n k
    rcases Nat.lt_or_ge i n with hlt | hge
    · rw [(troca_faixa N (pivotearAte N s n).A n i).1 hlt]
      rcases Nat.lt_or_ge k n with hkn | hkn
      · rw [hfk.1 hkn]
        exact ih i hlt k hk1 hk2
      · obtain ⟨h1, h2⟩ := hfk.2.2 hkn hk2
        exact ih i hlt _ (by omega) h2
    · have hin : i = n := by omega
      subst hin
      rw [Equiv.swap_apply_left]
      obtain ⟨h1, h2⟩ := hfk.2.2 hk1 hk2
      exact (buscarPivo_spec N _ i (by omega)).2.2.1 _ h1 h2

/-- On a matrix whose diagonal dominates every column from the diagonal down, no pass of
`pivotear` changes anything. -/
theorem pivotearAte_fixo (N : Nat) (s : Sistema)
    (h : ∀ i, i < N → ∀ k, i ≤ k → k < N → |s.A k i| ≤ |s.A i i|) (n : Nat) :
    pivotearAte N s n = s := by
  induction n with
  | zero => rfl
  | succ n ih =>
    rw [pivotearAte_succ, ih]
    apply pivotearPasso_fixo
    apply buscarPivo_fixo
    intro k hk1 hk2
    exact h n (by omega) k hk1 hk2

/-- A row placed by pass `i` is not moved by the later passes. -/
theorem pivotearAte_linha (N : Nat) (s : Sistema) (i n : Nat) (h : i < n) :
    (pivotearAte N s n).A i = (pivotearAte N s (i + 1)).A i := by
  induction n with
  | zero => omega
  | succ n ih =>
    rcases Nat.lt_or_ge i n with hlt | hge
    · rw [pivotearAte_succ, (pivotearPasso_swap N _ n).1 i,
        (troca_faixa N (pivotearAte N s n).A n i).1 hlt]
      exact ih hlt
    · have hin : i = n := by omega
      rw [hin]

/-! ## Pivoting: the claims -/

/-- C1: `pivotear` applies one and the same permutation of the row indices `0 .. N-1` to
`A` and to `b`, and the permuted system has exactly the solutions of the original one:
for every `x`, `A' x = b'` iff `A x = b`. -/
theorem pivotear_preserva_solucoes (N : Nat) (s : Sistema) :
    ∃ σ : Equiv.Perm ℕ, (∀ r, N ≤ r → σ r = r) ∧
      (∀ r, (pivotear N s).A r = s.A (σ r)) ∧
      (∀ r, (pivotear N s).b r = s.b (σ r)) ∧
      ∀ x : Vec, Resolve N (pivotear N s) x ↔ Resolve N s x := by
  obtain ⟨σ, h1, h2, h3⟩ := pivotearAte_perm N s N
  change ∀ r, (pivotear N s).A r = s.A (σ r) at h2
  change ∀ r, (pivotear N s).b r = s.b (σ r) at h3
  refine ⟨σ, h1, h2, h3, ?_⟩
  intro x
  have key := forall_perm_iff N σ h1
    (fun i => (∑ j in Finset.range N, s.A i j * x j) = s.b i)
  unfold Resolve
  rw [← key]
  constructor
  · intro h i hi
    have := h i hi
    rw [h2 i, h3 i] at this
    exact this
  · intro h i hi
    rw [h2 i, h3 i]
    exact h i hi

/-- C2: `pivotear` is idempotent.  In a second run on the output of `pivotear` the search
of every pass keeps `maxRow = i`, the state before every pass is still the output of the
first run, and the second run returns exactly that output. -/
theorem pivotear_idempotente (N : Nat) (s : Sistema) :
    (∀ i, (buscarPivo N (pivotear N s).A i).1 = i) ∧
    (∀ n, pivotearAte N (pivotear N s) n = pivotear N s) ∧
    pivotear N (pivotear N s) = pivotear N s := by
  have hdom : ∀ i, i < N → ∀ k, i ≤ k → k < N →
      |(pivotear N s).A k i| ≤ |(pivotear N s).A i i| := pivotearAte_domina N s N
  refine ⟨?_, pivotearAte_fixo N _ hdom, pivotearAte_fixo N _ hdom N⟩
  intro i
  apply buscarPivo_fixo
  intro k hk1 hk2
  exact hdom i (by omega) k hk1 hk2

/-- C3: after `pivotear`, every diagonal entry dominates its column from the diagonal
down: `|A'[i][i]| >= |A'[k][i]|` whenever `i <= k < N`. -/
theorem pivotear_diagonal_domina (N : Nat) (s : Sistema) (i k : Nat)
    (hi : i < N) (hik : i ≤ k) (hk : k < N) :
    |(pivotear N s).A i i| ≥ |(pivotear N s).A k i| :=
  pivotearAte_domina N s N i hi k hik hk

/-- C4: tie rule.  In pass `i < N` the row `m` chosen for position `i` lies in
`i .. N-1`, attains the maximum of `|A[k][i]|` over `k = i .. N-1`, and every earlier row
of that range is strictly smaller (so `m` is the lowest index attaining the maximum);
that row and its `b` entry are what the pass puts at position `i`; and when row `i`
itself attains the maximum the pass changes nothing in `A` or `b`. -/
theorem pivotear_regra_empate (N : Nat) (s : Sistema) (i : Nat) (hi : i < N) :
    i ≤ (buscarPivo N s.A i).1 ∧ (buscarPivo N s.A i).1 < N ∧
    (∀ k, i ≤ k → k < N → |s.A k i| ≤ |s.A (buscarPivo N s.A i).1 i|) ∧
    (∀ k, i ≤ k → k < (buscarPivo N s.A i).1 →
      |s.A k i| < |s.A (buscarPivo N s.A i).1 i|) ∧
    (pivotearPasso N s i).A i = s.A (buscarPivo N s.A i).1 ∧
    (pivotearPasso N s i).b i = s.b (buscarPivo N s.A i).1 ∧
    ((∀ k, i ≤ k → k < N → |s.A k i| ≤ |s.A i i|) → pivotearPasso N s i = s) := by
  obtain ⟨h1, h2, h3, h4⟩ := buscarPivo_spec N s.A i hi
  obtain ⟨hA, hb⟩ := pivotearPasso_swap N s i
  refine ⟨h1, h2, h3, h4, ?_, ?_, ?_⟩
  · rw [hA i, Equiv.swap_apply_left]
  · rw [hb i, Equiv.swap_apply_left]
  · intro h
    exact pivotearPasso_fixo N s i (buscarPivo_fixo N s.A i h)

/-- Witness of C3 on `sistemaEmpate`: after `pivotear` the entry at (0,0) dominates the
entry at (2,0). -/
theorem pivotear_diagonal_domina_witness :
    (0 < 3 ∧ 0 ≤ 2 ∧ 2 < 3) ∧
    |(pivotear 3 sistemaEmpate).A 0 0| ≥ |(pivotear 3 sistemaEmpate).A 2 0| :=
  ⟨by decide, pivotear_diagonal_domina 3 sistemaEmpate 0 2 (by decide) (by decide) (by decide)⟩

/-- Witness of C4 on `sistemaEmpate`: rows 1 and 2 tie in column 0 and pass 0 chooses
row 1, which it puts at position 0. -/
theorem pivotear_regra_empate_witness :
    0 < 3 ∧ (buscarPivo 3 sistemaEmpate.A 0).1 = 1 ∧
    |sistemaEmpate.A 1 0| = |sistemaEmpate.A 2 0| ∧
    (pivotearPasso 3 sistemaEmpate 0).A 0 =
      sistemaEmpate.A (buscarPivo 3 sistemaEmpate.A 0).1 :=
  ⟨by decide, by decide, by decide,
    (pivotear_regra_empate 3 sistemaEmpate 0 (by decide)).2.2.2.2.1⟩

/-! ## Loops as sums and as pointwise updates -/

/-- An accumulation loop that skips `j = i` computes the sum over the other indices. -/
theorem foldl_salta (f : Nat → ℚ) (i n : Nat) :
    (List.range n).foldl (fun (acc : ℚ) (j : Nat) => if i ≠ j then acc + f j else acc) 0 =
      ∑ j in (Finset.range n).erase i, f j := by
  have h : (List.range n).foldl
      (fun (acc : ℚ) (j : Nat) => if i ≠ j then acc + f j else acc) 0 =
      ∑ j in Finset.range n, if i ≠ j then f j else 0 := by
    induction n with
    | zero => rfl
    | succ n ih =>
      rw [List.range_succ, List.foldl_append, ih, Finset.sum_range_succ]
      simp only [List.foldl_cons, List.foldl_nil]
      split_ifs
      · rfl
      · rw [add_zero]
  rw [h, ← Finset.sum_filter, Finset.filter_ne]

/-- A loop that assigns `x[i] = g i` for `i = 0 .. n-1` yields `g` below `n` and leaves
the rest of `x`. -/
theorem foldl_atribui (g : Nat → ℚ) (x0 : Vec) (n : Nat) (i : Nat) :
    (List.range n).foldl (fun (x : Vec) (k : Nat) => Function.update x k (g k)) x0 i =
      if i < n then g i else x0 i := by
  induction n with
  | zero => rfl
  | succ n ih =>
    rw [List.range_succ, List.foldl_append]
    simp only [List.foldl_cons, List.foldl_nil, Function.update_apply]
    rw [ih]
    by_cases h1 : i = n
    · subst h1
      simp
    · by_cases h2 : i < n
      · simp [h1, h2, Nat.lt_succ_of_lt h2]
      · have h3 : ¬ i < n + 1 := by omega
        simp [h1, h2, h3]

/-- A flag loop that clears the flag whenever `c i` holds ends with the flag set iff
`c` holds for no index. -/
theorem foldl_bandeira (c : Nat → Prop) [DecidablePred c] (n : Nat) :
    (List.range n).foldl (fun (d : Bool) (i : Nat) => if c i then false else d) true = true ↔
      ∀ i, i < n → ¬ c i := by
  induction n with
  | zero => simp
  | succ n ih =>
    rw [List.range_succ, List.foldl_append]
    simp only [List.foldl_cons, List.foldl_nil]
    by_cases hc : c n
    · simp only [hc, if_true]
      constructor
      · intro h; exact absurd h (by decide)
      · intro h; exact absurd hc (h n (Nat.lt_succ_self n))
    · simp only [hc, if_false]
      rw [ih]
      constructor
      · intro h i hi
        rcases Nat.lt_or_ge i n with hlt | hge
        · exact h i hlt
        · have : i = n := by omega
          rw [this]; exact hc
      · intro h i hi
        exact h i (Nat.lt_succ_of_lt hi)

/-! ## Diagonal dominance check -/

theorem somaOffDiagonal_eq (N : Nat) (A : Mat) (i : Nat) :
    somaOffDiagonal N A i = ∑ j in (Finset.range N).erase i, |A i j| :=
  foldl_salta (fun j => |A i j|) i N

/-- The sequential flag is set iff no row has `diagonal <= soma_off_diagonal`. -/
theorem dominanteSeq_iff (N : Nat) (A : Mat) :
    dominanteSeq N A = true ↔ ∀ i, i < N → ¬ (|A i i| ≤ somaOffDiagonal N A i) :=
  foldl_bandeira (fun i => |A i i| ≤ somaOffDiagonal N A i) N

/-- The parallel flag is set iff no row among the first five has
`diagonal <= soma_off_diagonal`. -/
theorem dominantePar_iff (N : Nat) (A : Mat) :
    dominantePar N A = true ↔
      ∀ i, i < N → ¬ (i < 5 ∧ |A i i| ≤ somaOffDiagonal N A i) := by
  have h : dominantePar N A = (List.range N).foldl
      (fun (d : Bool) (i : Nat) =>
        if (i < 5 ∧ |A i i| ≤ somaOffDiagonal N A i) then false else d) true := by
    unfold dominantePar
    congr 1
    funext d i
    by_cases h1 : i < 5
    · by_cases h2 : |A i i| ≤ somaOffDiagonal N A i
      · simp [h1, h2]
      · simp [h1, h2]
    · simp [h1]
  rw [h]
  exact foldl_bandeira (fun i => i < 5 ∧ |A i i| ≤ somaOffDiagonal N A i) N

/-- The sequential flag is set iff every row is strictly dominant. -/
theorem dominanteSeq_estrita (N : Nat) (A : Mat) :
    dominanteSeq N A = true ↔
      ∀ i, i < N → |A i i| > ∑ j in (Finset.range N).erase i, |A i j| := by
  rw [dominanteSeq_iff]
  constructor
  · intro h i hi
    have := h i hi
    rw [somaOffDiagonal_eq] at this
    exact not_le.mp this
  · intro h i hi
    rw [somaOffDiagonal_eq]
    exact not_le.mpr (h i hi)

/-- C7, the code at a failing input: on the 2000x2000 matrix `matLinha5` row 5 is not
strictly dominant (diagonal 1, off-diagonal sum at least 2), yet the parallel check keeps
its flag set and returns to `main` without prompting, whatever the pending reply; the
sequential check clears the flag on the same matrix. -/
theorem dominantePar_ignora_linha5 :
    ¬ (|matLinha5 5 5| > ∑ j in (Finset.range 2000).erase 5, |matLinha5 5 j|) ∧
    dominantePar 2000 matLinha5 = true ∧
    (∀ opc, verificar_dominancia_diagonal_par 2000 matLinha5 opc = Fluxo.retorna) ∧
    dominanteSeq 2000 matLinha5 = false := by
  have hrow : ¬ (|matLinha5 5 5| > ∑ j in (Finset.range 2000).erase 5, |matLinha5 5 j|) := by
    have hmem : 6 ∈ (Finset.range 2000).erase 5 := by
      rw [Finset.mem_erase, Finset.mem_range]
      exact ⟨by decide, by decide⟩
    have hle : |matLinha5 5 6| ≤ ∑ j in (Finset.range 2000).erase 5, |matLinha5 5 j| :=
      Finset.single_le_sum (f := fun j => |matLinha5 5 j|) (fun j _ => abs_nonneg _) hmem
    have h56 : |matLinha5 5 6| = 2 := by decide
    have h55 : |matLinha5 5 5| = 1 := by decide
    rw [h55]
    rw [h56] at hle
    intro hgt
    linarith
  have hpar : dominantePar 2000 matLinha5 = true := by
    rw [dominantePar_iff]
    rintro i hi ⟨h5, hle⟩
    have hsum : somaOffDiagonal 2000 matLinha5 i = 0 := by
      rw [somaOffDiagonal_eq]
      apply Finset.sum_eq_zero
      intro j hj
      have hne : j ≠ i := (Finset.mem_erase.mp hj).1
      have : matLinha5 i j = 0 := by
        unfold matLinha5
        rw [if_neg (fun h => hne h.symm), if_neg (fun h => by omega)]
      rw [this, abs_zero]
    have hdiag : |matLinha5 i i| = 1 := by
      unfold matLinha5
      rw [if_pos rfl, abs_one]
    rw [hsum, hdiag] at hle
    linarith
  refine ⟨hrow, hpar, ?_, ?_⟩
  · intro opc
    simp [verificar_dominancia_diagonal_par, portao, hpar]
  · cases hd : dominanteSeq 2000 matLinha5 with
    | false => rfl
    | true =>
      have := (dominanteSeq_estrita 2000 matLinha5).mp hd 5 (by decide)
      exact absurd this hrow

/-! ## One pass of the Jacobi loop -/

theorem somaJacobi_eq (N : Nat) (A : Mat) (x : Vec) (i : Nat) :
    somaJacobi N A x i = ∑ j in (Finset.range N).erase i, A i j * x j :=
  foldl_salta (fun j => A i j * x j) i N

theorem inicializar_apply (N : Nat) (x0 : Vec) (i : Nat) :
    inicializar N x0 i = if i < N then 0 else x0 i :=
  foldl_atribui (fun _ => 0) x0 N i

theorem calcularProximo_apply (N : Nat) (A : Mat) (b x_atual x_proximo : Vec) (i : Nat) :
    calcularProximo N A b x_atual x_proximo i =
      if i < N then (b i - somaJacobi N A x_atual i) / A i i else x_proximo i :=
  foldl_atribui (fun i => (b i - somaJacobi N A x_atual i) / A i i) x_proximo N i

theorem copiar_apply (N : Nat) (x_proximo x_atual : Vec) (i : Nat) :
    copiar N x_proximo x_atual i = if i < N then x_proximo i else x_atual i :=
  foldl_atribui x_proximo x_atual N i

/-- The running maximum of a loop `if d i > m then m = d i` started at 0, over
non-negative values: it bounds every value seen, and it is 0 or one of them. -/
theorem foldl_maximo (d : Nat → ℚ) (hd : ∀ i, 0 ≤ d i) (n : Nat) :
    (∀ i, i < n → d i ≤ (List.range n).foldl
      (fun (m : ℚ) (i : Nat) => if d i > m then d i else m) 0) ∧
    (n = 0 → (List.range n).foldl
      (fun (m : ℚ) (i : Nat) => if d i > m then d i else m) 0 = 0) ∧
    (0 < n → ∃ i, i < n ∧ (List.range n).foldl
      (fun (m : ℚ) (i : Nat) => if d i > m then d i else m) 0 = d i) := by
  induction n with
  | zero =>
    refine ⟨fun i hi => by omega, fun _ => rfl, fun h => by omega⟩
  | succ n ih =>
    obtain ⟨h1, h2, h3⟩ := ih
    rw [List.range_succ, List.foldl_append]
    simp only [List.foldl_cons, List.foldl_nil]
    refine ⟨?_, fun h => by omega, fun _ => ?_⟩
    · intro i hi
      rcases Nat.lt_or_ge i n with hlt | hge
      · have := h1 i hlt
        split_ifs with hc
        · exact le_trans this (le_of_lt hc)
        · exact this
      · have hin : i = n := by omega
        subst hin
        split_ifs with hc
        · exact le_refl _
        · exact not_lt.mp hc
    · split_ifs with hc
      · exact ⟨n, Nat.lt_succ_self n, rfl⟩
      · rcases Nat.eq_zero_or_pos n with hn | hn
        · refine ⟨n, Nat.lt_succ_self n, ?_⟩
          have h0 := h2 hn
          rw [h0] at hc ⊢
          exact le_antisymm (hd n) (not_lt.mp hc)
        · obtain ⟨i, hi, heq⟩ := h3 hn
          exact ⟨i, Nat.lt_succ_of_lt hi, heq⟩

theorem calcularMaxDiff_spec (N : Nat) (xp xa : Vec) :
    (∀ i, i < N → |xp i - xa i| ≤ calcularMaxDiff N xp xa) ∧
    (N = 0 → calcularMaxDiff N xp xa = 0) ∧
    (0 < N → ∃ i, i < N ∧ calcularMaxDiff N xp xa = |xp i - xa i|) :=
  foldl_maximo (fun i => |xp i - xa i|) (fun _ => abs_nonneg _) N

/-- C9: one Jacobi pass leaves `A` and `b` unchanged, sets
`x_proximo[i] = (b[i] - sum over j != i of A[i][j] * x_atual[j]) / A[i][i]` for every
`i < N` from the previous iterate `x_atual` alone (the value does not depend on the old
contents of `x_proximo`), and after the copy `x_atual[i] = x_proximo[i]` for every
`i < N`; before the first pass `x_atual[i] = 0` for every `i < N`. -/
theorem iteracao_formula (N : Nat) (e : Estado) :
    (iteracao N e).A = e.A ∧ (iteracao N e).b = e.b ∧
    (∀ i, i < N → (iteracao N e).x_proximo i =
      (e.b i - ∑ j in (Finset.range N).erase i, e.A i j * e.x_atual j) / e.A i i) ∧
    (∀ (xp : Vec) (i : Nat), i < N →
      (iteracao N { e with x_proximo := xp }).x_proximo i = (iteracao N e).x_proximo i) ∧
    (∀ i, i < N → (iteracao N e).x_atual i = (iteracao N e).x_proximo i) ∧
    (∀ (s : Sistema) (x0 xp0 : Vec) (md0 : ℚ) (i : Nat), i < N →
      (estadoInicial N s x0 xp0 md0).x_atual i = 0) := by
  refine ⟨rfl, rfl, ?_, ?_, ?_, ?_⟩
  · intro i hi
    show calcularProximo N e.A e.b e.x_atual e.x_proximo i = _
    rw [calcularProximo_apply, if_pos hi, somaJacobi_eq]
  · intro xp i hi
    show calcularProximo N e.A e.b e.x_atual xp i =
      calcularProximo N e.A e.b e.x_atual e.x_proximo i
    rw [calcularProximo_apply, calcularProximo_apply, if_pos hi, if_pos hi]
  · intro i hi
    show copiar N (calcularProximo N e.A e.b e.x_atual e.x_proximo) e.x_atual i = _
    rw [copiar_apply, if_pos hi]
    rfl
  · intro s x0 xp0 md0 i hi
    show inicializar N x0 i = 0
    rw [inicializar_apply, if_pos hi]

/-- The stopping metric on finite values, in exact arithmetic: after a pass `max_diff` is
at least `|x_proximo[i] - x_atual_old[i]|` for every `i < N`, where `x_atual_old` is the
iterate from before the copy; when `N > 0` it equals that value for some `i < N`; it is
0 when `N = 0` and when the pass did not change the iterate. -/
theorem iteracao_max_diff (N : Nat) (e : Estado) :
    (∀ i, i < N → (iteracao N e).max_diff ≥ |(iteracao N e).x_proximo i - e.x_atual i|) ∧
    (0 < N → ∃ i, i < N ∧
      (iteracao N e).max_diff = |(iteracao N e).x_proximo i - e.x_atual i|) ∧
    (N = 0 → (iteracao N e).max_diff = 0) ∧
    ((∀ i, i < N → (iteracao N e).x_proximo i = e.x_atual i) →
      (iteracao N e).max_diff = 0) := by
  obtain ⟨h1, h2, h3⟩ :=
    calcularMaxDiff_spec N (calcularProximo N e.A e.b e.x_atual e.x_proximo) e.x_atual
  refine ⟨h1, h3, h2, ?_⟩
  intro hsame
  rcases Nat.eq_zero_or_pos N with hN | hN
  · exact h2 hN
  · obtain ⟨i, hi, heq⟩ := h3 hN
    show calcularMaxDiff N (calcularProximo N e.A e.b e.x_atual e.x_proximo) e.x_atual = 0
    rw [heq]
    have := hsame i hi
    change calcularProximo N e.A e.b e.x_atual e.x_proximo i = e.x_atual i at this
    rw [this, sub_self, abs_zero]

/-! ## Zero pivots -/

/-- When the gate lets the run through, the loop works on the output of `pivotear`. -/
theorem prepararPar_some (N : Nat) (s : Sistema) (opc : Char) (s1 : Sistema)
    (h : prepararPar N s opc = some s1) : s1 = pivotear N s := by
  unfold prepararPar at h
  simp only at h
  split at h
  · exact absurd h (by simp)
  · exact (Option.some.inj h).symm

/-- The gate lets the run through when the flag is set or the reply is `y` or `Y`. -/
theorem prepararPar_segue (N : Nat) (s : Sistema) (opc : Char)
    (h : dominantePar N (pivotear N s).A = true ∨ opc = 'y' ∨ opc = 'Y') :
    prepararPar N s opc = some (pivotear N s) := by
  have hf : verificar_dominancia_diagonal_par N (pivotear N s).A opc = Fluxo.retorna := by
    unfold verificar_dominancia_diagonal_par portao
    rcases h with h | h | h
    · simp [h]
    · simp [h]
    · simp [h]
  unfold prepararPar
  simp only [hf]

/-- C5 fails on the code: column 0 of `sistemaColunaNula` is zero in rows 0..1 when
pass 0 of `pivotear` runs, and with the reply `y` the program does not stop before the
loop: the first Jacobi pass completes (`iteracoes = 1`) on a matrix with `A[0][0] = 0`. -/
theorem pivo_nulo_nao_aborta :
    (∀ k, 0 ≤ k → k < 2 → (pivotearAte 2 sistemaColunaNula 0).A k 0 = 0) ∧
    (primeiraIteracaoPar 2 sistemaColunaNula 'y' (vecDe []) (vecDe []) 0).map
      (fun e => (e.iteracoes, e.A 0 0)) = some (1, 0) := by
  refine ⟨?_, by decide!⟩
  intro k _ hk
  interval_cases k <;> decide

/-- C5 as amended: a zero pivot is not reported.  When at pass `i < N` every entry of
column `i` in rows `i .. N-1` is zero, the pass changes nothing, `pivotear` returns with
`A[i][i] = 0`, and whenever the dominance gate lets the run through (flag set, or reply
`y` or `Y`) the first Jacobi pass runs on that matrix. -/
theorem pivotear_pivo_nulo (N : Nat) (s : Sistema) (i : Nat) (hi : i < N)
    (hz : ∀ k, i ≤ k → k < N → (pivotearAte N s i).A k i = 0) :
    pivotearPasso N (pivotearAte N s i) i = pivotearAte N s i ∧
    (pivotear N s).A i i = 0 ∧
    (∀ (opc : Char) (x0 xp0 : Vec) (md0 : ℚ),
      (dominantePar N (pivotear N s).A = true ∨ opc = 'y' ∨ opc = 'Y') →
      ∃ e, primeiraIteracaoPar N s opc x0 xp0 md0 = some e ∧
        e.iteracoes = 1 ∧ e.A i i = 0) := by
  have hpasso : pivotearPasso N (pivotearAte N s i) i = pivotearAte N s i := by
    apply pivotearPasso_fixo
    apply buscarPivo_fixo
    intro k hk1 hk2
    rw [hz k hk1 hk2, hz i (le_refl _) hi]
  have hdiag : (pivotear N s).A i i = 0 := by
    show (pivotearAte N s N).A i i = 0
    rw [pivotearAte_linha N s i N hi, pivotearAte_succ, hpasso]
    exact hz i (le_refl _) hi
  refine ⟨hpasso, hdiag, ?_⟩
  intro opc x0 xp0 md0 hgate
  refine ⟨iteracao N (estadoInicial N (pivotear N s) x0 xp0 md0), ?_, rfl, hdiag⟩
  unfold primeiraIteracaoPar
  rw [prepararPar_segue N s opc hgate]
  rfl

/-- Witness of the amended C5 on `sistemaColunaNula`, pass 0. -/
theorem pivotear_pivo_nulo_witness :
    0 < 2 ∧ (∀ k, 0 ≤ k → k < 2 → (pivotearAte 2 sistemaColunaNula 0).A k 0 = 0) ∧
    (pivotear 2 sistemaColunaNula).A 0 0 = 0 :=
  ⟨by decide, fun k _ hk => by interval_cases k <;> decide,
    (pivotear_pivo_nulo 2 sistemaColunaNula 0 (by decide)
      (fun k _ hk => by interval_cases k <;> decide)).2.1⟩

/-- C6 fails on the code: on `sistemaDiagonalNula` the parallel program reaches the
Jacobi loop (the flag stays set, so not even the prompt appears and the reply `n` is
never read) with `A[5][5] = 0`. -/
theorem diagonal_nula_entra_no_laco :
    (prepararPar 6 sistemaDiagonalNula 'n').map (fun s1 => s1.A 5 5) = some 0 := by
  decide!

/-- C6 as amended: whenever the Jacobi loop is entered, a diagonal entry `A[i][i]` is
non-zero for every `i < N` whose column has a non-zero entry in some row `k` with
`i <= k < N` of the matrix the loop works on. -/
theorem diagonal_nao_nula (N : Nat) (s : Sistema) (opc : Char) (s1 : Sistema)
    (h : prepararPar N s opc = some s1) (i k : Nat) (hi : i < N) (hik : i ≤ k) (hk : k < N)
    (hne : s1.A k i ≠ 0) : s1.A i i ≠ 0 := by
  rw [prepararPar_some N s opc s1 h] at hne ⊢
  intro hzero
  have hdom := pivotearAte_domina N s N i hi k hik hk
  change |(pivotear N s).A k i| ≤ |(pivotear N s).A i i| at hdom
  rw [hzero, abs_zero] at hdom
  exact hne (abs_nonpos_iff.mp hdom)

/-- Witness of the amended C6 on `sistemaPequeno` with the reply `y`: column 0 has the
non-zero entry `A'[1][0]`, and `A'[0][0]` is non-zero. -/
theorem diagonal_nao_nula_witness :
    prepararPar 2 sistemaPequeno 'y' = some (pivotear 2 sistemaPequeno) ∧
    (pivotear 2 sistemaPequeno).A 1 0 ≠ 0 ∧ (pivotear 2 sistemaPequeno).A 0 0 ≠ 0 :=
  ⟨prepararPar_segue 2 sistemaPequeno 'y' (Or.inr (Or.inl rfl)), by decide,
    diagonal_nao_nula 2 sistemaPequeno 'y' (pivotear 2 sistemaPequeno)
      (prepararPar_segue 2 sistemaPequeno 'y' (Or.inr (Or.inl rfl))) 0 1
      (by decide) (by decide) (by decide) (by decide)⟩

/-! ## The `do ... while` loop -/

theorem iteracao_iteracoes (N : Nat) (e : Estado) :
    (iteracao N e).iteracoes = e.iteracoes + 1 := rfl

theorem iterate_iteracoes (N : Nat) (k : Nat) (e : Estado) :
    ((iteracao N)^[k] e).iteracoes = e.iteracoes + k := by
  induction k generalizing e with
  | zero => rfl
  | succ k ih =>
    rw [Function.iterate_succ_apply, ih, iteracao_iteracoes]
    omega

/-- The body is repeated exactly when the cap is not exceeded and the tolerance is not
met. -/
theorem controle_repete (maxIt : Nat) (tol : ℚ) (e : Estado) :
    controle maxIt tol e = Controle.repete ↔ (e.max_diff ≥ tol ∧ e.iteracoes ≤ maxIt) := by
  unfold controle
  by_cases h1 : e.iteracoes > maxIt
  · simp only [h1, if_true]
    constructor
    · intro h; exact absurd h (by decide)
    · intro h; omega
  · by_cases h2 : e.max_diff ≥ tol
    · simp only [h1, h2, if_true, if_false, true_and, true_iff]
      omega
    · simp only [h1, h2, if_false, false_and, iff_false]
      decide

theorem controle_interrompe (maxIt : Nat) (tol : ℚ) (e : Estado) :
    controle maxIt tol e = Controle.interrompe ↔ e.iteracoes > maxIt := by
  unfold controle
  by_cases h1 : e.iteracoes > maxIt
  · simp [h1]
  · by_cases h2 : e.max_diff ≥ tol
    · simp [h1, h2]
    · simp [h1, h2]

theorem controle_termina (maxIt : Nat) (tol : ℚ) (e : Estado) :
    controle maxIt tol e = Controle.termina ↔ (e.iteracoes ≤ maxIt ∧ e.max_diff < tol) := by
  unfold controle
  by_cases h1 : e.iteracoes > maxIt
  · simp only [h1, if_true]
    constructor
    · intro h; exact absurd h (by decide)
    · intro h; omega
  · by_cases h2 : e.max_diff ≥ tol
    · simp only [h1, h2, if_true, if_false]
      constructor
      · intro h; exact absurd h (by decide)
      · intro h; exact absurd h2 (not_le.mpr h.2)
    · simp only [h1, h2, if_false, true_iff]
      exact ⟨by omega, not_le.mp h2⟩

/-- With enough fuel the loop ends after some number `k >= 1` of passes: every earlier
pass repeated, pass `k` did not, and the message flag tells whether pass `k` broke out. -/
theorem laco_spec (N maxIt : Nat) (tol : ℚ) (fuel : Nat) :
    ∀ e : Estado, maxIt + 1 ≤ e.iteracoes + fuel → 0 < fuel →
      ∃ k, 1 ≤ k ∧ k ≤ fuel ∧
        laco N maxIt tol fuel e = some ((iteracao N)^[k] e,
          decide (controle maxIt tol ((iteracao N)^[k] e) = Controle.interrompe)) ∧
        controle maxIt tol ((iteracao N)^[k] e) ≠ Controle.repete ∧
        ∀ j, 1 ≤ j → j < k → controle maxIt tol ((iteracao N)^[j] e) = Controle.repete := by
  induction fuel with
  | zero => intro e _ h; omega
  | succ fuel ih =>
    intro e hfuel _
    cases hc : controle maxIt tol (iteracao N e) with
    | interrompe =>
      refine ⟨1, le_refl _, by omega, ?_, ?_, fun j h1 h2 => by omega⟩
      · simp only [laco, hc, Function.iterate_one, decide_True]
      · rw [Function.iterate_one, hc]; decide
    | termina =>
      refine ⟨1, le_refl _, by omega, ?_, ?_, fun j h1 h2 => by omega⟩
      · simp only [laco, hc, Function.iterate_one]
        rfl
      · rw [Function.iterate_one, hc]; decide
    | repete =>
      have hle : (iteracao N e).iteracoes ≤ maxIt := ((controle_repete _ _ _).mp hc).2
      rw [iteracao_iteracoes] at hle
      obtain ⟨k, hk1, hk2, hres, hstop, hrep⟩ :=
        ih (iteracao N e) (by rw [iteracao_iteracoes]; omega) (by omega)
      refine ⟨k + 1, by omega, by omega, ?_, ?_, ?_⟩
      · simp only [laco, hc, Function.iterate_succ_apply]
        exact hres
      · rw [Function.iterate_succ_apply]; exact hstop
      · intro j hj1 hj2
        rcases Nat.eq_or_lt_of_le hj1 with h | h
        · rw [← h, Function.iterate_one]; exact hc
        · have := hrep (j - 1) (by omega) (by omega)
          rw [← Function.iterate_succ_apply] at this
          have hj : (j - 1).succ = j := by omega
          rw [hj] at this
          exact this

/-- The loop started with `iteracoes = 0` and `maxIt + 1` passes of fuel: it ends after
`k` passes with `1 <= k <= maxIt + 1`; the message is printed iff `k = maxIt + 1`; every
earlier pass missed the tolerance; and if `k <= maxIt` the last pass met it. -/
theorem laco_resultado (N maxIt : Nat) (tol : ℚ) (e : Estado) (h0 : e.iteracoes = 0) :
    ∃ k, 1 ≤ k ∧ k ≤ maxIt + 1 ∧
      laco N maxIt tol (maxIt + 1) e = some ((iteracao N)^[k] e, decide (k = maxIt + 1)) ∧
      (∀ j, 1 ≤ j → j < k → ((iteracao N)^[j] e).max_diff ≥ tol) ∧
      (k ≤ maxIt → ((iteracao N)^[k] e).max_diff < tol) := by
  obtain ⟨k, hk1, hk2, hres, hstop, hrep⟩ :=
    laco_spec N maxIt tol (maxIt + 1) e (by omega) (by omega)
  have hit : ((iteracao N)^[k] e).iteracoes = k := by rw [iterate_iteracoes, h0]; omega
  refine ⟨k, hk1, hk2, ?_, ?_, ?_⟩
  · rw [hres]
    congr 2
    rw [decide_eq_decide, controle_interrompe, hit]
    omega
  · intro j hj1 hj2
    exact ((controle_repete _ _ _).mp (hrep j hj1 hj2)).1
  · intro hle
    cases hc : controle maxIt tol ((iteracao N)^[k] e) with
    | repete => exact absurd hc hstop
    | termina => exact ((controle_termina _ _ _).mp hc).2
    | interrompe =>
      have := (controle_interrompe _ _ _).mp hc
      rw [hit] at this
      omega

/-- The loop of `main` from the initial state, with the constants of the source: the
number `k` of passes it runs and what is known of them. -/
theorem jacobi_resultado (N : Nat) (s : Sistema) (x0 xp0 : Vec) (md0 : ℚ) :
    ∃ k, 1 ≤ k ∧ k ≤ MAX_ITERACOES + 1 ∧
      jacobi N (estadoInicial N s x0 xp0 md0) =
        some ((iteracao N)^[k] (estadoInicial N s x0 xp0 md0),
          decide (k = MAX_ITERACOES + 1)) ∧
      ((iteracao N)^[k] (estadoInicial N s x0 xp0 md0)).iteracoes = k ∧
      (∀ j, 1 ≤ j → j < k →
        ((iteracao N)^[j] (estadoInicial N s x0 xp0 md0)).max_diff ≥ TOLERANCIA) ∧
      (k ≤ MAX_ITERACOES →
        ((iteracao N)^[k] (estadoInicial N s x0 xp0 md0)).max_diff < TOLERANCIA) := by
  obtain ⟨k, h1, h2, h3, h4, h5⟩ :=
    laco_resultado N MAX_ITERACOES TOLERANCIA (estadoInicial N s x0 xp0 md0) rfl
  refine ⟨k, h1, h2, h3, ?_, h4, h5⟩
  rw [iterate_iteracoes]
  show 0 + k = k
  omega

/-- C11: loop exit rule.  After a pass the body is repeated iff
`max_diff >= TOLERANCIA` and `iteracoes <= MAX_ITERACOES`, and after the `k`-th pass
`iteracoes = k`.  From the initial state the loop always ends: it returns the state
after `k` passes with `1 <= k <= MAX_ITERACOES + 1`, every earlier pass having missed
the tolerance; if it ends with `iteracoes <= MAX_ITERACOES` the last `max_diff` is below
`TOLERANCIA`; and if no pass up to `MAX_ITERACOES` meets the tolerance it ends with
`iteracoes = MAX_ITERACOES + 1`. -/
theorem jacobi_regra_de_saida (N : Nat) (s : Sistema) (x0 xp0 : Vec) (md0 : ℚ) :
    (∀ e : Estado, controle MAX_ITERACOES TOLERANCIA e = Controle.repete ↔
      (e.max_diff ≥ TOLERANCIA ∧ e.iteracoes ≤ MAX_ITERACOES)) ∧
    (∀ k, ((iteracao N)^[k] (estadoInicial N s x0 xp0 md0)).iteracoes = k) ∧
    ∃ r, jacobi N (estadoInicial N s x0 xp0 md0) = some r ∧
      1 ≤ r.1.iteracoes ∧ r.1.iteracoes ≤ MAX_ITERACOES + 1 ∧
      r.1 = (iteracao N)^[r.1.iteracoes] (estadoInicial N s x0 xp0 md0) ∧
      (∀ j, 1 ≤ j → j < r.1.iteracoes →
        ((iteracao N)^[j] (estadoInicial N s x0 xp0 md0)).max_diff ≥ TOLERANCIA) ∧
      (r.1.iteracoes ≤ MAX_ITERACOES → r.1.max_diff < TOLERANCIA) ∧
      ((∀ j, 1 ≤ j → j ≤ MAX_ITERACOES →
        ((iteracao N)^[j] (estadoInicial N s x0 xp0 md0)).max_diff ≥ TOLERANCIA) →
        r.1.iteracoes = MAX_ITERACOES + 1) := by
  refine ⟨fun e => controle_repete _ _ e, ?_, ?_⟩
  · intro k
    rw [iterate_iteracoes]
    show 0 + k = k
    omega
  · obtain ⟨k, h1, h2, h3, h4, h5, h6⟩ := jacobi_resultado N s x0 xp0 md0
    refine ⟨_, h3, ?_⟩
    simp only
    rw [h4]
    refine ⟨h1, h2, rfl, h5, h6, ?_⟩
    intro hnever
    by_contra hne
    have hk : k ≤ MAX_ITERACOES := by omega
    exact absurd (h6 hk) (not_lt.mpr (hnever k h1 hk))

/-- C12 as amended: the non-convergence message is printed exactly when the loop ends with
`iteracoes = MAX_ITERACOES + 1`, that is exactly when every one of the passes
`1 .. MAX_ITERACOES` missed the tolerance; a loop that ends with the last `max_diff` at or
above `TOLERANCIA` prints it, and a loop that ends without the message has its last
`max_diff` below `TOLERANCIA`. -/
theorem relato_nao_convergiu (N : Nat) (s : Sistema) (x0 xp0 : Vec) (md0 : ℚ) :
    ∃ r, jacobi N (estadoInicial N s x0 xp0 md0) = some r ∧
      (r.2 = true ↔ r.1.iteracoes = MAX_ITERACOES + 1) ∧
      (r.2 = true ↔ ∀ j, 1 ≤ j → j ≤ MAX_ITERACOES →
        ((iteracao N)^[j] (estadoInicial N s x0 xp0 md0)).max_diff ≥ TOLERANCIA) ∧
      (r.1.max_diff ≥ TOLERANCIA → r.2 = true) ∧
      (r.2 = false → r.1.max_diff < TOLERANCIA) := by
  obtain ⟨k, h1, h2, h3, h4, h5, h6⟩ := jacobi_resultado N s x0 xp0 md0
  refine ⟨_, h3, ?_⟩
  simp only [decide_eq_true_eq, decide_eq_false_iff_not]
  rw [h4]
  refine ⟨Iff.rfl, ?_, ?_, ?_⟩
  · constructor
    · intro hk j hj1 hj2
      exact h5 j hj1 (by omega)
    · intro hall
      by_contra hne
      have hk : k ≤ MAX_ITERACOES := by omega
      exact absurd (h6 hk) (not_lt.mpr (hall k h1 hk))
  · intro hge
    by_contra hne
    exact absurd (h6 (by omega)) (not_lt.mpr hge)
  · intro hne
    exact h6 (by omega)

/-! ## Iterates of the pass -/

theorem iterate_A (N : Nat) (k : Nat) (e : Estado) : ((iteracao N)^[k] e).A = e.A := by
  induction k generalizing e with
  | zero => rfl
  | succ k ih => rw [Function.iterate_succ_apply, ih]; rfl

theorem iterate_b (N : Nat) (k : Nat) (e : Estado) : ((iteracao N)^[k] e).b = e.b := by
  induction k generalizing e with
  | zero => rfl
  | succ k ih => rw [Function.iterate_succ_apply, ih]; rfl

theorem iteracao_x_proximo (N : Nat) (e : Estado) (i : Nat) (hi : i < N) :
    (iteracao N e).x_proximo i =
      (e.b i - ∑ j in (Finset.range N).erase i, e.A i j * e.x_atual j) / e.A i i := by
  show calcularProximo N e.A e.b e.x_atual e.x_proximo i = _
  rw [calcularProximo_apply, if_pos hi, somaJacobi_eq]

theorem iteracao_x_atual (N : Nat) (e : Estado) (i : Nat) (hi : i < N) :
    (iteracao N e).x_atual i = (iteracao N e).x_proximo i := by
  show copiar N (calcularProximo N e.A e.b e.x_atual e.x_proximo) e.x_atual i = _
  rw [copiar_apply, if_pos hi]
  rfl

theorem iteracao_max_diff_spec (N : Nat) (e : Estado) :
    (∀ i, i < N → |(iteracao N e).x_proximo i - e.x_atual i| ≤ (iteracao N e).max_diff) ∧
    (N = 0 → (iteracao N e).max_diff = 0) ∧
    (0 < N → ∃ i, i < N ∧
      (iteracao N e).max_diff = |(iteracao N e).x_proximo i - e.x_atual i|) :=
  calcularMaxDiff_spec N (calcularProximo N e.A e.b e.x_atual e.x_proximo) e.x_atual

theorem iteracao_max_diff_nonneg (N : Nat) (e : Estado) : 0 ≤ (iteracao N e).max_diff := by
  obtain ⟨_, h2, h3⟩ := iteracao_max_diff_spec N e
  rcases Nat.eq_zero_or_pos N with h | h
  · rw [h2 h]
  · obtain ⟨i, _, heq⟩ := h3 h
    rw [heq]
    exact abs_nonneg _

/-! ## The geometric 2x2 system -/

/-- One pass on `sistemaGeometrico r c` from an iterate with two equal entries `u`. -/
theorem geometrico_passo (r c u : ℚ) (e : Estado)
    (hA : e.A = (sistemaGeometrico r c).A) (hb : e.b = (sistemaGeometrico r c).b)
    (h0 : e.x_atual 0 = u) (h1 : e.x_atual 1 = u) :
    (iteracao 2 e).x_atual 0 = c - r * u ∧ (iteracao 2 e).x_atual 1 = c - r * u ∧
    (iteracao 2 e).max_diff = |c - r * u - u| := by
  have e0 : (Finset.range 2).erase 0 = {1} := by decide
  have e1 : (Finset.range 2).erase 1 = {0} := by decide
  have hp0 : (iteracao 2 e).x_proximo 0 = c - r * u := by
    rw [iteracao_x_proximo 2 e 0 (by decide), e0, Finset.sum_singleton, hA, hb, h1]
    simp [sistemaGeometrico]
  have hp1 : (iteracao 2 e).x_proximo 1 = c - r * u := by
    rw [iteracao_x_proximo 2 e 1 (by decide), e1, Finset.sum_singleton, hA, hb, h0]
    simp [sistemaGeometrico]
  refine ⟨?_, ?_, ?_⟩
  · rw [iteracao_x_atual 2 e 0 (by decide), hp0]
  · rw [iteracao_x_atual 2 e 1 (by decide), hp1]
  · obtain ⟨i, hi, heq⟩ := (iteracao_max_diff_spec 2 e).2.2 (by decide)
    rw [heq]
    interval_cases i
    · rw [hp0, h0]
    · rw [hp1, h1]

theorem valorGeometrico_diff (r c : ℚ) (k : Nat) :
    valorGeometrico r c (k + 1) - valorGeometrico r c k = c * (-r) ^ k := by
  induction k with
  | zero => simp [valorGeometrico]
  | succ k ih =>
    have h : valorGeometrico r c (k + 2) - valorGeometrico r c (k + 1) =
        (-r) * (valorGeometrico r c (k + 1) - valorGeometrico r c k) := by
      simp only [valorGeometrico]
      ring
    rw [h, ih]
    ring

/-- The iterates of `sistemaGeometrico r c` from the initial state: after `k + 1` passes
`max_diff = c * r ^ k` (for `r, c >= 0`). -/
theorem geometrico_iterado (r c : ℚ) (hr : 0 ≤ r) (hc : 0 ≤ c) (x0 xp0 : Vec) (md0 : ℚ)
    (k : Nat) :
    ((iteracao 2)^[k] (estadoInicial 2 (sistemaGeometrico r c) x0 xp0 md0)).x_atual 0 =
      valorGeometrico r c k ∧
    ((iteracao 2)^[k] (estadoInicial 2 (sistemaGeometrico r c) x0 xp0 md0)).x_atual 1 =
      valorGeometrico r c k ∧
    ((iteracao 2)^[k + 1] (estadoInicial 2 (sistemaGeometrico r c) x0 xp0 md0)).max_diff =
      c * r ^ k := by
  have hx : ∀ n,
      ((iteracao 2)^[n] (estadoInicial 2 (sistemaGeometrico r c) x0 xp0 md0)).x_atual 0 =
        valorGeometrico r c n ∧
      ((iteracao 2)^[n] (estadoInicial 2 (sistemaGeometrico r c) x0 xp0 md0)).x_atual 1 =
        valorGeometrico r c n := by
    intro n
    induction n with
    | zero =>
      constructor
      · show inicializar 2 x0 0 = 0
        rw [inicializar_apply, if_pos (by decide)]
      · show inicializar 2 x0 1 = 0
        rw [inicializar_apply, if_pos (by decide)]
    | succ n ih =>
      rw [Function.iterate_succ_apply']
      obtain ⟨h0, h1, _⟩ := geometrico_passo r c (valorGeometrico r c n) _
        (iterate_A 2 n _) (iterate_b 2 n _) ih.1 ih.2
      exact ⟨h0, h1⟩
  refine ⟨(hx k).1, (hx k).2, ?_⟩
  rw [Function.iterate_succ_apply']
  obtain ⟨_, _, hm⟩ := geometrico_passo r c (valorGeometrico r c k) _
    (iterate_A 2 k _) (iterate_b 2 k _) (hx k).1 (hx k).2
  rw [hm]
  have := valorGeometrico_diff r c k
  simp only [valorGeometrico] at this
  rw [this, abs_mul, abs_pow, abs_neg, abs_of_nonneg hr, abs_of_nonneg hc]

/-- On a geometric system whose `max_diff` stays at or above the tolerance during the
passes `1 .. maxIt`, the loop runs `maxIt + 1` passes and prints the message. -/
theorem geometrico_laco (r c : ℚ) (hr : 0 ≤ r) (hc : 0 ≤ c) (x0 xp0 : Vec) (md0 : ℚ)
    (maxIt : Nat) (tol : ℚ) (h : ∀ k, k < maxIt → tol ≤ c * r ^ k) :
    laco 2 maxIt tol (maxIt + 1) (estadoInicial 2 (sistemaGeometrico r c) x0 xp0 md0) =
      some ((iteracao 2)^[maxIt + 1] (estadoInicial 2 (sistemaGeometrico r c) x0 xp0 md0),
        true) := by
  obtain ⟨k, h1, h2, h3, _, h5⟩ :=
    laco_resultado 2 maxIt tol (estadoInicial 2 (sistemaGeometrico r c) x0 xp0 md0) rfl
  have hk : k = maxIt + 1 := by
    by_contra hne
    have hle : k ≤ maxIt := by omega
    have hlt := h5 hle
    have hkk : k = (k - 1) + 1 := by omega
    rw [hkk, (geometrico_iterado r c hr hc x0 xp0 md0 (k - 1)).2.2] at hlt
    exact absurd hlt (not_lt.mpr (h (k - 1) (by omega)))
  rw [h3, hk]
  simp

/-- C12 fails on the code: on `sistemaLimiar` the passes 1 to 10000 have
`max_diff >= TOLERANCIA`, pass 10001 has `max_diff = 0.999 * TOLERANCIA < TOLERANCIA`,
and the loop, which ends there with `iteracoes = 10001`, prints the non-convergence
message although the last `max_diff` is below the tolerance. -/
theorem relato_com_tolerancia_atingida :
    ∃ r, jacobi 2 (estadoInicial 2 sistemaLimiar (vecDe []) (vecDe []) 0) = some r ∧
      r.2 = true ∧ r.1.iteracoes = 10001 ∧ r.1.max_diff < TOLERANCIA := by
  have hr : (0 : ℚ) ≤ 999 / 1000 := by norm_num
  have hr1 : (999 / 1000 : ℚ) ≤ 1 := by norm_num
  have hc : (0 : ℚ) ≤ (1000 / 999) ^ 9999 / 100000 := by positivity
  have hprod : ((1000 / 999 : ℚ)) ^ 9999 * (999 / 1000) ^ 9999 = 1 := by
    rw [← mul_pow]
    have : (1000 / 999 : ℚ) * (999 / 1000) = 1 := by norm_num
    rw [this, one_pow]
  have hlaco := geometrico_laco (999 / 1000) ((1000 / 999) ^ 9999 / 100000) hr hc
    (vecDe []) (vecDe []) 0 MAX_ITERACOES TOLERANCIA (by
      intro k hk
      have hk2 : k ≤ 9999 := by
        have : MAX_ITERACOES = 10000 := rfl
        omega
      have hpow : (999 / 1000 : ℚ) ^ 9999 ≤ (999 / 1000) ^ k :=
        pow_le_pow_of_le_one hr hr1 hk2
      have hc2 : (0 : ℚ) ≤ (1000 / 999) ^ 9999 / 100000 := hc
      calc TOLERANCIA = (1000 / 999) ^ 9999 / 100000 * (999 / 1000) ^ 9999 := by
            rw [div_mul_eq_mul_div, hprod]; rfl
        _ ≤ (1000 / 999) ^ 9999 / 100000 * (999 / 1000) ^ k :=
            mul_le_mul_of_nonneg_left hpow hc2)
  refine ⟨_, hlaco, rfl, ?_, ?_⟩
  · rw [iterate_iteracoes]
    rfl
  · have hmd := (geometrico_iterado (999 / 1000) ((1000 / 999) ^ 9999 / 100000) hr hc
      (vecDe []) (vecDe []) 0 MAX_ITERACOES).2.2
    simp only
    rw [hmd]
    have hM : MAX_ITERACOES = 9999 + 1 := rfl
    rw [hM, pow_succ (999 / 1000 : ℚ) 9999, ← mul_assoc, div_mul_eq_mul_div, hprod]
    show (1 / 100000 * (999 / 1000) : ℚ) < 1 / 100000
    norm_num

/-! ## Contraction under strict diagonal dominance -/

theorem rho_spec (N : Nat) (A : Mat) :
    (∀ i, i < N → (∑ j in (Finset.range N).erase i, |A i j|) / |A i i| ≤ rho N A) ∧
    (N = 0 → rho N A = 0) ∧
    (0 < N → ∃ i, i < N ∧ rho N A = (∑ j in (Finset.range N).erase i, |A i j|) / |A i i|) :=
  foldl_maximo (fun i => (∑ j in (Finset.range N).erase i, |A i j|) / |A i i|)
    (fun _ => div_nonneg (Finset.sum_nonneg (fun _ _ => abs_nonneg _)) (abs_nonneg _)) N

theorem rho_nonneg (N : Nat) (A : Mat) : 0 ≤ rho N A := by
  obtain ⟨_, h2, h3⟩ := rho_spec N A
  rcases Nat.eq_zero_or_pos N with h | h
  · rw [h2 h]
  · obtain ⟨i, _, heq⟩ := h3 h
    rw [heq]
    exact div_nonneg (Finset.sum_nonneg (fun _ _ => abs_nonneg _)) (abs_nonneg _)

/-- Under strict diagonal dominance `rho < 1`. -/
theorem rho_lt_one (N : Nat) (A : Mat)
    (hdom : ∀ i, i < N → |A i i| > ∑ j in (Finset.range N).erase i, |A i j|) :
    rho N A < 1 := by
  obtain ⟨_, h2, h3⟩ := rho_spec N A
  rcases Nat.eq_zero_or_pos N with h | h
  · rw [h2 h]; exact zero_lt_one
  · obtain ⟨i, hi, heq⟩ := h3 h
    rw [heq]
    have hd := hdom i hi
    have hpos : 0 < |A i i| :=
      lt_of_le_of_lt (Finset.sum_nonneg (fun _ _ => abs_nonneg _)) hd
    rw [div_lt_one hpos]
    exact hd

/-- The difference of two successive iterates in row `i`, bounded by the off-diagonal
row sum times the previous `max_diff`, over `|A[i][i]|`. -/
theorem contracao_linha (N : Nat) (e : Estado) (i : Nat) (hi : i < N) :
    |(iteracao N (iteracao N e)).x_proximo i - (iteracao N e).x_atual i| ≤
      (∑ j in (Finset.range N).erase i, |e.A i j|) / |e.A i i| * (iteracao N e).max_diff := by
  have hM := (iteracao_max_diff_spec N e).1
  have hxa : ∀ j, j < N → (iteracao N e).x_atual j = (iteracao N e).x_proximo j :=
    fun j hj => iteracao_x_atual N e j hj
  have hA : (iteracao N e).A = e.A := rfl
  have hb : (iteracao N e).b = e.b := rfl
  rw [iteracao_x_proximo N (iteracao N e) i hi, hxa i hi, iteracao_x_proximo N e i hi, hA, hb]
  have hsub : (e.b i - ∑ j in (Finset.range N).erase i, e.A i j * (iteracao N e).x_atual j) /
        e.A i i -
      (e.b i - ∑ j in (Finset.range N).erase i, e.A i j * e.x_atual j) / e.A i i =
      -(∑ j in (Finset.range N).erase i,
          e.A i j * ((iteracao N e).x_atual j - e.x_atual j)) / e.A i i := by
    rw [← sub_div]
    congr 1
    simp only [mul_sub, Finset.sum_sub_distrib]
    ring
  rw [hsub, abs_div, abs_neg, div_mul_eq_mul_div]
  apply div_le_div_of_nonneg_right _ (abs_nonneg _)
  calc |∑ j in (Finset.range N).erase i, e.A i j * ((iteracao N e).x_atual j - e.x_atual j)|
      ≤ ∑ j in (Finset.range N).erase i,
          |e.A i j * ((iteracao N e).x_atual j - e.x_atual j)| := Finset.abs_sum_le_sum_abs _ _
    _ ≤ ∑ j in (Finset.range N).erase i, |e.A i j| * (iteracao N e).max_diff := by
        apply Finset.sum_le_sum
        intro j hj
        have hjN : j < N := Finset.mem_range.mp (Finset.mem_of_mem_erase hj)
        rw [abs_mul, hxa j hjN]
        exact mul_le_mul_of_nonneg_left (hM j hjN) (abs_nonneg _)
    _ = (∑ j in (Finset.range N).erase i, |e.A i j|) * (iteracao N e).max_diff := by
        rw [Finset.sum_mul]

/-- Two successive passes: the second `max_diff` is at most `rho` times the first. -/
theorem contracao_passo (N : Nat) (e : Estado) :
    (iteracao N (iteracao N e)).max_diff ≤ rho N e.A * (iteracao N e).max_diff := by
  obtain ⟨_, h2, h3⟩ := iteracao_max_diff_spec N (iteracao N e)
  rcases Nat.eq_zero_or_pos N with h | h
  · rw [h2 h]
    exact mul_nonneg (rho_nonneg N e.A) (iteracao_max_diff_nonneg N e)
  · obtain ⟨i, hi, heq⟩ := h3 h
    rw [heq]
    exact le_trans (contracao_linha N e i hi)
      (mul_le_mul_of_nonneg_right ((rho_spec N e.A).1 i hi) (iteracao_max_diff_nonneg N e))

/-- In terms of the passes from the initial state: pass `k + 2` against pass `k + 1`. -/
theorem contracao_iterado (N : Nat) (e : Estado) (k : Nat) :
    ((iteracao N)^[k + 2] e).max_diff ≤ rho N e.A * ((iteracao N)^[k + 1] e).max_diff := by
  have h := contracao_passo N ((iteracao N)^[k] e)
  rw [iterate_A] at h
  rw [Function.iterate_succ_apply', Function.iterate_succ_apply']
  exact h

/-- C14: contraction of the stopping metric.  For a strictly diagonally dominant matrix
the factor `rho` satisfies `0 <= rho < 1`, and for every `k >= 1` the `max_diff` of pass
`k + 1` is at most `rho` times the `max_diff` of pass `k`, hence at most the `max_diff`
of pass `k`: the sequence is non-increasing. -/
theorem max_diff_contrai (N : Nat) (s : Sistema) (x0 xp0 : Vec) (md0 : ℚ)
    (hdom : ∀ i, i < N → |s.A i i| > ∑ j in (Finset.range N).erase i, |s.A i j|)
    (k : Nat) (hk : 1 ≤ k) :
    0 ≤ rho N s.A ∧ rho N s.A < 1 ∧
    ((iteracao N)^[k + 1] (estadoInicial N s x0 xp0 md0)).max_diff ≤
      rho N s.A * ((iteracao N)^[k] (estadoInicial N s x0 xp0 md0)).max_diff ∧
    ((iteracao N)^[k + 1] (estadoInicial N s x0 xp0 md0)).max_diff ≤
      ((iteracao N)^[k] (estadoInicial N s x0 xp0 md0)).max_diff := by
  have hlt := rho_lt_one N s.A hdom
  have h0 := rho_nonneg N s.A
  obtain ⟨n, rfl⟩ : ∃ n, k = n + 1 := ⟨k - 1, by omega⟩
  have hc := contracao_iterado N (estadoInicial N s x0 xp0 md0) n
  have hnn : 0 ≤ ((iteracao N)^[n + 1] (estadoInicial N s x0 xp0 md0)).max_diff := by
    rw [Function.iterate_succ_apply']
    exact iteracao_max_diff_nonneg N _
  refine ⟨h0, hlt, hc, le_trans hc ?_⟩
  calc rho N s.A * ((iteracao N)^[n + 1] (estadoInicial N s x0 xp0 md0)).max_diff
      ≤ 1 * ((iteracao N)^[n + 1] (estadoInicial N s x0 xp0 md0)).max_diff :=
        mul_le_mul_of_nonneg_right (le_of_lt hlt) hnn
    _ = ((iteracao N)^[n + 1] (estadoInicial N s x0 xp0 md0)).max_diff := one_mul _

/-- Witness of C14 on `sistemaDominante` (rows 2 > 1 and 3 > 1), passes 1 and 2: the
`max_diff` values are 5/3 and 5/6 and `rho = 1/2`. -/
theorem max_diff_contrai_witness :
    (rho 2 sistemaDominante.A = 1 / 2 ∧
      ((iteracao 2)^[1] (estadoInicial 2 sistemaDominante (vecDe []) (vecDe []) 0)).max_diff
        = 5 / 3 ∧
      ((iteracao 2)^[2] (estadoInicial 2 sistemaDominante (vecDe []) (vecDe []) 0)).max_diff
        = 5 / 6) ∧
    ((iteracao 2)^[1 + 1] (estadoInicial 2 sistemaDominante (vecDe []) (vecDe []) 0)).max_diff
      ≤ rho 2 sistemaDominante.A *
        ((iteracao 2)^[1] (estadoInicial 2 sistemaDominante (vecDe []) (vecDe []) 0)).max_diff :=
  ⟨⟨by decide!, by decide!, by decide!⟩,
    (max_diff_contrai 2 sistemaDominante (vecDe []) (vecDe []) 0
      ((dominanteSeq_estrita 2 sistemaDominante.A).mp (by decide!)) 1 (le_refl 1)).2.2.1⟩

/-! ## Convergence within the cap -/

/-- Under contraction the `max_diff` of pass `k + 1` is at most `rho ^ k` times that of
pass 1. -/
theorem max_diff_geometrico (N : Nat) (e : Estado) (k : Nat) :
    ((iteracao N)^[k + 1] e).max_diff ≤ rho N e.A ^ k * ((iteracao N)^[1] e).max_diff := by
  induction k with
  | zero => rw [pow_zero, one_mul]
  | succ k ih =>
    calc ((iteracao N)^[k + 2] e).max_diff
        ≤ rho N e.A * ((iteracao N)^[k + 1] e).max_diff := contracao_iterado N e k
      _ ≤ rho N e.A * (rho N e.A ^ k * ((iteracao N)^[1] e).max_diff) :=
          mul_le_mul_of_nonneg_left ih (rho_nonneg N e.A)
      _ = rho N e.A ^ (k + 1) * ((iteracao N)^[1] e).max_diff := by ring

/-- If some pass `K <= MAX_ITERACOES` meets the tolerance, the loop ends within `K`
passes, below the tolerance and without the message. -/
theorem jacobi_para_cedo (N : Nat) (s : Sistema) (x0 xp0 : Vec) (md0 : ℚ) (K : Nat)
    (hK1 : 1 ≤ K) (hK2 : K ≤ MAX_ITERACOES)
    (hmd : ((iteracao N)^[K] (estadoInicial N s x0 xp0 md0)).max_diff < TOLERANCIA) :
    ∃ r, jacobi N (estadoInicial N s x0 xp0 md0) = some r ∧ r.1.iteracoes ≤ K ∧
      r.2 = false ∧ r.1.max_diff < TOLERANCIA := by
  obtain ⟨k, h1, h2, h3, h4, h5, h6⟩ := jacobi_resultado N s x0 xp0 md0
  have hkK : k ≤ K := by
    by_contra hgt
    exact absurd hmd (not_lt.mpr (h5 K hK1 (by omega)))
  refine ⟨_, h3, ?_, ?_, ?_⟩
  · simp only; rw [h4]; exact hkK
  · simp only [decide_eq_false_iff_not]; omega
  · exact h6 (by omega)

/-- C13 fails on the code: `sistemaLento` is strictly diagonally dominant (1 > 0.999999
in both rows), yet every pass up to 10001 has `max_diff >= TOLERANCIA`, so the loop ends
by the cap with `iteracoes = 10001 > MAX_ITERACOES` and prints the message. -/
theorem dominante_excede_limite :
    (∀ i, i < 2 →
      |sistemaLento.A i i| > ∑ j in (Finset.range 2).erase i, |sistemaLento.A i j|) ∧
    ∃ r, jacobi 2 (estadoInicial 2 sistemaLento (vecDe []) (vecDe []) 0) = some r ∧
      r.1.iteracoes = 10001 ∧ ¬ (r.1.iteracoes ≤ MAX_ITERACOES) ∧ r.2 = true ∧
      r.1.max_diff ≥ TOLERANCIA := by
  have hr : (0 : ℚ) ≤ 999999 / 1000000 := by norm_num
  have hbern : ∀ k : Nat, k ≤ 10000 → TOLERANCIA ≤ 1 * (999999 / 1000000 : ℚ) ^ k := by
    intro k hk
    have hb := one_add_mul_le_pow (show (-2 : ℚ) ≤ -(1 / 1000000) by norm_num) k
    have hcast : (k : ℚ) ≤ 10000 := by exact_mod_cast hk
    have heq : (1 + -(1 / 1000000) : ℚ) = 999999 / 1000000 := by norm_num
    rw [heq] at hb
    rw [one_mul]
    have htol : TOLERANCIA = 1 / 100000 := rfl
    rw [htol]
    linarith
  have hlaco := geometrico_laco (999999 / 1000000) 1 hr zero_le_one
    (vecDe []) (vecDe []) 0 MAX_ITERACOES TOLERANCIA (by
      intro k hk
      have : MAX_ITERACOES = 10000 := rfl
      exact hbern k (by omega))
  constructor
  · intro i hi
    have e0 : (Finset.range 2).erase 0 = {1} := by decide
    have e1 : (Finset.range 2).erase 1 = {0} := by decide
    interval_cases i
    · rw [e0, Finset.sum_singleton]
      simp only [sistemaLento, sistemaGeometrico]
      norm_num [abs_of_nonneg hr]
    · rw [e1, Finset.sum_singleton]
      simp only [sistemaLento, sistemaGeometrico]
      norm_num [abs_of_nonneg hr]
  · have hit : ((iteracao 2)^[MAX_ITERACOES + 1]
        (estadoInicial 2 (sistemaGeometrico (999999 / 1000000) 1)
          (vecDe []) (vecDe []) 0)).iteracoes = 10001 := by
      rw [iterate_iteracoes]
      rfl
    refine ⟨_, hlaco, hit, ?_, rfl, ?_⟩
    · simp only
      rw [hit]
      decide
    · have hmd := (geometrico_iterado (999999 / 1000000) 1 hr zero_le_one
        (vecDe []) (vecDe []) 0 MAX_ITERACOES).2.2
      simp only
      rw [hmd]
      exact hbern MAX_ITERACOES (le_refl _)

/-- C13 as amended: for a strictly diagonally dominant matrix, in exact arithmetic, the
`max_diff` of pass `k + 1` is at most `rho ^ k` times that of pass 1 with `rho < 1`, so
some pass reaches `max_diff < TOLERANCIA`; and the loop ends with
`iteracoes <= MAX_ITERACOES`, below the tolerance, whenever
`rho ^ (K - 1) * max_diff_1 < TOLERANCIA` for some `K` with `1 <= K <= MAX_ITERACOES`. -/
theorem convergencia_dominante (N : Nat) (s : Sistema) (x0 xp0 : Vec) (md0 : ℚ)
    (hdom : ∀ i, i < N → |s.A i i| > ∑ j in (Finset.range N).erase i, |s.A i j|) :
    (∀ k, ((iteracao N)^[k + 1] (estadoInicial N s x0 xp0 md0)).max_diff ≤
      rho N s.A ^ k * ((iteracao N)^[1] (estadoInicial N s x0 xp0 md0)).max_diff) ∧
    (∃ k, 1 ≤ k ∧
      ((iteracao N)^[k] (estadoInicial N s x0 xp0 md0)).max_diff < TOLERANCIA) ∧
    (∀ K, 1 ≤ K → K ≤ MAX_ITERACOES →
      rho N s.A ^ (K - 1) * ((iteracao N)^[1] (estadoInicial N s x0 xp0 md0)).max_diff
        < TOLERANCIA →
      ∃ r, jacobi N (estadoInicial N s x0 xp0 md0) = some r ∧
        r.1.iteracoes ≤ MAX_ITERACOES ∧ r.1.iteracoes ≤ K ∧ r.2 = false ∧
        r.1.max_diff < TOLERANCIA) := by
  have hgeo := max_diff_geometrico N (estadoInicial N s x0 xp0 md0)
  have hA : (estadoInicial N s x0 xp0 md0).A = s.A := rfl
  rw [hA] at hgeo
  have htol : (0 : ℚ) < TOLERANCIA := by
    show (0 : ℚ) < 1 / 100000
    norm_num
  have hM : 0 ≤ ((iteracao N)^[1] (estadoInicial N s x0 xp0 md0)).max_diff :=
    iteracao_max_diff_nonneg N _
  refine ⟨hgeo, ?_, ?_⟩
  · rcases eq_or_lt_of_le hM with h0 | hpos
    · exact ⟨1, le_refl _, by rw [← h0]; exact htol⟩
    · obtain ⟨n, hn⟩ := exists_pow_lt_of_lt_one
        (div_pos htol hpos) (rho_lt_one N s.A hdom)
      refine ⟨n + 1, by omega, lt_of_le_of_lt (hgeo n) ?_⟩
      rwa [lt_div_iff₀ hpos] at hn
  · intro K hK1 hK2 hsmall
    have hK : K = (K - 1) + 1 := by omega
    have hmd : ((iteracao N)^[K] (estadoInicial N s x0 xp0 md0)).max_diff < TOLERANCIA := by
      rw [hK]
      exact lt_of_le_of_lt (hgeo (K - 1)) hsmall
    obtain ⟨r, h1, h2, h3, h4⟩ := jacobi_para_cedo N s x0 xp0 md0 K hK1 hK2 hmd
    exact ⟨r, h1, le_trans h2 hK2, h2, h3, h4⟩

/-- Witness of the amended C13 on `sistemaDominante`: the loop ends after 15 passes
without the message. -/
theorem convergencia_dominante_witness :
    (jacobi 2 (estadoInicial 2 sistemaDominante (vecDe []) (vecDe []) 0)).map
      (fun r => (r.1.iteracoes, r.2)) = some (15, false) ∧
    ∃ k, 1 ≤ k ∧
      ((iteracao 2)^[k] (estadoInicial 2 sistemaDominante (vecDe []) (vecDe []) 0)).max_diff
        < TOLERANCIA :=
  ⟨by decide!,
    (convergencia_dominante 2 sistemaDominante (vecDe []) (vecDe []) 0
      ((dominanteSeq_estrita 2 sistemaDominante.A).mp (by decide!))).2.1⟩

/-! ## Max reductions -/

/-- The running maximum from any start `a` over a list: it is at least `a` and every
value of the list, and it is `a` or one of those values. -/
theorem foldl_max_acc {α : Type} (w : α → ℚ) (l : List α) :
    ∀ a : ℚ,
      a ≤ l.foldl (fun (acc : ℚ) (t : α) => if w t > acc then w t else acc) a ∧
      (∀ t, t ∈ l → w t ≤ l.foldl (fun (acc : ℚ) (t : α) => if w t > acc then w t else acc) a) ∧
      (l.foldl (fun (acc : ℚ) (t : α) => if w t > acc then w t else acc) a = a ∨
        ∃ t, t ∈ l ∧ l.foldl (fun (acc : ℚ) (t : α) => if w t > acc then w t else acc) a = w t) := by
  induction l with
  | nil =>
    intro a
    exact ⟨le_refl _, fun t ht => absurd ht (List.not_mem_nil t), Or.inl rfl⟩
  | cons x l ih =>
    intro a
    rw [List.foldl_cons]
    obtain ⟨h1, h2, h3⟩ := ih (if w x > a then w x else a)
    have hax : a ≤ (if w x > a then w x else a) ∧ w x ≤ (if w x > a then w x else a) := by
      split_ifs with hc
      · exact ⟨le_of_lt hc, le_refl _⟩
      · exact ⟨le_refl _, not_lt.mp hc⟩
    refine ⟨le_trans hax.1 h1, ?_, ?_⟩
    · intro t ht
      rcases List.mem_cons.mp ht with h | h
      · rw [h]; exact le_trans hax.2 h1
      · exact h2 t h
    · rcases h3 with h | ⟨t, ht, heq⟩
      · by_cases hc : w x > a
        · right
          refine ⟨x, List.mem_cons_self x l, ?_⟩
          rw [h, if_pos hc]
        · left
          rw [h, if_neg hc]
      · exact Or.inr ⟨t, List.mem_cons_of_mem x ht, heq⟩

/-- Two values that both are "0 or a value of the list, and at least 0 and every value of
the list", for lists with the same members, are equal. -/
theorem max_unico (v : Nat → ℚ) (l1 l2 : List Nat) (h : ∀ i, i ∈ l1 ↔ i ∈ l2) (R1 R2 : ℚ)
    (h1 : 0 ≤ R1 ∧ (∀ i, i ∈ l1 → v i ≤ R1) ∧ (R1 = 0 ∨ ∃ i, i ∈ l1 ∧ R1 = v i))
    (h2 : 0 ≤ R2 ∧ (∀ i, i ∈ l2 → v i ≤ R2) ∧ (R2 = 0 ∨ ∃ i, i ∈ l2 ∧ R2 = v i)) :
    R1 = R2 := by
  obtain ⟨a1, b1, c1⟩ := h1
  obtain ⟨a2, b2, c2⟩ := h2
  apply le_antisymm
  · rcases c1 with h0 | ⟨i, hi, heq⟩
    · rw [h0]; exact a2
    · rw [heq]; exact b2 i ((h i).mp hi)
  · rcases c2 with h0 | ⟨i, hi, heq⟩
    · rw [h0]; exact a1
    · rw [heq]; exact b1 i ((h i).mpr hi)

theorem dobraMax_spec (v : Nat → ℚ) (l : List Nat) :
    0 ≤ dobraMax v l ∧ (∀ i, i ∈ l → v i ≤ dobraMax v l) ∧
    (dobraMax v l = 0 ∨ ∃ i, i ∈ l ∧ dobraMax v l = v i) :=
  foldl_max_acc v l 0

/-- Merging local maxima gives what one reduction over all the indices gives. -/
theorem mesclaMax_spec (v : Nat → ℚ) (blocos : List (List Nat)) :
    0 ≤ mesclaMax v blocos ∧ (∀ i, i ∈ blocos.flatten → v i ≤ mesclaMax v blocos) ∧
    (mesclaMax v blocos = 0 ∨ ∃ i, i ∈ blocos.flatten ∧ mesclaMax v blocos = v i) := by
  obtain ⟨h1, h2, h3⟩ := foldl_max_acc (fun bloco => dobraMax v bloco) blocos 0
  refine ⟨h1, ?_, ?_⟩
  · intro i hi
    obtain ⟨bl, hbl, hib⟩ := List.mem_flatten.mp hi
    exact le_trans ((dobraMax_spec v bl).2.1 i hib) (h2 bl hbl)
  · rcases h3 with h | ⟨bl, hbl, heq⟩
    · exact Or.inl h
    · rcases (dobraMax_spec v bl).2.2 with h0 | ⟨i, hi, hv⟩
      · left
        exact heq.trans h0
      · right
        exact ⟨i, List.mem_flatten.mpr ⟨bl, hbl, hi⟩, heq.trans hv⟩

theorem dobraMax_perm (v : Nat → ℚ) (l1 l2 : List Nat) (h : ∀ i, i ∈ l1 ↔ i ∈ l2) :
    dobraMax v l1 = dobraMax v l2 :=
  max_unico v l1 l2 h _ _ (dobraMax_spec v l1) (dobraMax_spec v l2)

theorem mesclaMax_eq (v : Nat → ℚ) (blocos : List (List Nat)) (l : List Nat)
    (h : ∀ i, i ∈ blocos.flatten ↔ i ∈ l) : mesclaMax v blocos = dobraMax v l :=
  max_unico v blocos.flatten l h _ _ (mesclaMax_spec v blocos) (dobraMax_spec v l)

theorem calcularMaxDiff_dobra (N : Nat) (xp xa : Vec) :
    calcularMaxDiff N xp xa = dobraMax (fun i => |xp i - xa i|) (List.range N) := rfl

theorem maxLocal_dobra (N : Nat) (A : Mat) (b x : Vec) (bloco : List Nat) :
    maxLocal N A b x bloco = dobraMax (fun i => |somaLinha N A x i - b i|) bloco := rfl

theorem maxResiduo_mescla (N : Nat) (A : Mat) (b x : Vec) (blocos : List (List Nat)) :
    maxResiduo N A b x blocos = mesclaMax (fun i => |somaLinha N A x i - b i|) blocos := rfl

/-- C15: the max reductions do not depend on the order of evaluation nor on how the
indices are split.  For any values `v`, any order `ordem` that is a permutation of
`0 .. N-1` and any blocks whose concatenation is a permutation of `0 .. N-1`, the fold
in that order, and the merge of the local maxima of the blocks in any order of the
blocks, both equal the left-to-right fold over `0 .. N-1`; the latter is `max_diff` for
`v i = |x_proximo[i] - x_atual[i]|`, and the `max_residuo` of `verificar_solucao` under
the schedule `blocos` equals the one computed by a single thread. -/
theorem reducao_max_independe (N : Nat) (v : Nat → ℚ) (ordem : List Nat)
    (blocos mesclados : List (List Nat))
    (h1 : ordem.Perm (List.range N)) (h2 : blocos.flatten.Perm (List.range N))
    (h3 : mesclados.Perm blocos) :
    dobraMax v ordem = dobraMax v (List.range N) ∧
    mesclaMax v blocos = dobraMax v (List.range N) ∧
    mesclaMax v mesclados = dobraMax v (List.range N) ∧
    (∀ xp xa : Vec,
      dobraMax (fun i => |xp i - xa i|) ordem = calcularMaxDiff N xp xa ∧
      mesclaMax (fun i => |xp i - xa i|) blocos = calcularMaxDiff N xp xa) ∧
    (∀ (A : Mat) (b x : Vec),
      maxResiduo N A b x blocos = maxResiduo N A b x [List.range N] ∧
      maxResiduo N A b x mesclados = maxResiduo N A b x [List.range N] ∧
      maxResiduo N A b x [List.range N] = maxLocal N A b x (List.range N)) := by
  have hm1 : ∀ i, i ∈ ordem ↔ i ∈ List.range N := fun i => h1.mem_iff
  have hm2 : ∀ i, i ∈ blocos.flatten ↔ i ∈ List.range N := fun i => h2.mem_iff
  have hm3 : ∀ i, i ∈ mesclados.flatten ↔ i ∈ List.range N := by
    intro i
    rw [← hm2 i, List.mem_flatten, List.mem_flatten]
    constructor
    · rintro ⟨l, hl, hi⟩
      exact ⟨l, h3.mem_iff.mp hl, hi⟩
    · rintro ⟨l, hl, hi⟩
      exact ⟨l, h3.mem_iff.mpr hl, hi⟩
  have hsingle : ∀ i, i ∈ [List.range N].flatten ↔ i ∈ List.range N := by
    intro i
    simp
  refine ⟨dobraMax_perm v _ _ hm1, mesclaMax_eq v _ _ hm2, mesclaMax_eq v _ _ hm3, ?_, ?_⟩
  · intro xp xa
    rw [calcularMaxDiff_dobra]
    exact ⟨dobraMax_perm _ _ _ hm1, mesclaMax_eq _ _ _ hm2⟩
  · intro A b x
    rw [maxResiduo_mescla, maxResiduo_mescla, maxResiduo_mescla, maxLocal_dobra,
      mesclaMax_eq _ _ _ hm2, mesclaMax_eq _ _ _ hm3, mesclaMax_eq _ _ _ hsingle]
    exact ⟨rfl, rfl, rfl⟩

/-- Witness of C15 for `N = 3`: the order 2, 0, 1 and the blocks `[1]`, `[2, 0]` merged
in either order. -/
theorem reducao_max_independe_witness :
    dobraMax (fun i => vecDe [3, 7, 5] i) [2, 0, 1] = 7 ∧
    dobraMax (fun i => vecDe [3, 7, 5] i) [2, 0, 1] =
      dobraMax (fun i => vecDe [3, 7, 5] i) (List.range 3) ∧
    mesclaMax (fun i => vecDe [3, 7, 5] i) [[2, 0], [1]] =
      dobraMax (fun i => vecDe [3, 7, 5] i) (List.range 3) :=
  ⟨by decide,
    (reducao_max_independe 3 (fun i => vecDe [3, 7, 5] i) [2, 0, 1] [[1], [2, 0]]
      [[2, 0], [1]] (by decide) (by decide) (by decide)).1,
    (reducao_max_independe 3 (fun i => vecDe [3, 7, 5] i) [2, 0, 1] [[1], [2, 0]]
      [[2, 0], [1]] (by decide) (by decide) (by decide)).2.2.1⟩

/-! ## Residual verification -/

/-- An accumulation loop over `0 .. n-1` computes the sum. -/
theorem foldl_soma (f : Nat → ℚ) (n : Nat) :
    (List.range n).foldl (fun (acc : ℚ) (j : Nat) => acc + f j) 0 =
      ∑ j in Finset.range n, f j := by
  induction n with
  | zero => rfl
  | succ n ih =>
    rw [List.range_succ, List.foldl_append, ih, Finset.sum_range_succ]
    rfl

theorem somaLinha_eq (N : Nat) (A : Mat) (x : Vec) (i : Nat) :
    somaLinha N A x i = ∑ j in Finset.range N, A i j * x j :=
  foldl_soma (fun j => A i j * x j) N

/-- Under a schedule that hands out every row index, `max_residuo` is at least 0 and
every row residual, and it is 0 or the residual of some row. -/
theorem maxResiduo_spec (N : Nat) (A : Mat) (b x : Vec) (blocos : List (List Nat))
    (h : blocos.flatten.Perm (List.range N)) :
    0 ≤ maxResiduo N A b x blocos ∧
    (∀ i, i < N → |(∑ j in Finset.range N, A i j * x j) - b i| ≤ maxResiduo N A b x blocos) ∧
    (maxResiduo N A b x blocos = 0 ∨ ∃ i, i < N ∧
      maxResiduo N A b x blocos = |(∑ j in Finset.range N, A i j * x j) - b i|) := by
  obtain ⟨h1, h2, h3⟩ := mesclaMax_spec (fun i => |somaLinha N A x i - b i|) blocos
  rw [← maxResiduo_mescla] at h1 h2 h3
  refine ⟨h1, ?_, ?_⟩
  · intro i hi
    have := h2 i (h.mem_iff.mpr (List.mem_range.mpr hi))
    simp only [somaLinha_eq] at this
    exact this
  · rcases h3 with h0 | ⟨i, hi, heq⟩
    · exact Or.inl h0
    · right
      refine ⟨i, List.mem_range.mp (h.mem_iff.mp hi), ?_⟩
      rw [heq]
      simp only [somaLinha_eq]

/-- The residual check on finite values, in exact arithmetic: under any schedule that
hands out every row index once, `max_residuo >= |(A x)_i - b[i]|` for every `i < N`, with
the full row sum (the term `j = i` included); when `N > 0` it equals that value for some
`i < N`; and `A`, `b`, `x` are as before the call. -/
theorem verificar_solucao_norma (N : Nat) (A : Mat) (b x : Vec) (blocos : List (List Nat))
    (h : blocos.flatten.Perm (List.range N)) :
    (∀ i, i < N → (verificar_solucao N A b x blocos).max_residuo ≥
      |(∑ j in Finset.range N, A i j * x j) - b i|) ∧
    (0 < N → ∃ i, i < N ∧ (verificar_solucao N A b x blocos).max_residuo =
      |(∑ j in Finset.range N, A i j * x j) - b i|) ∧
    (verificar_solucao N A b x blocos).A = A ∧
    (verificar_solucao N A b x blocos).b = b ∧
    (verificar_solucao N A b x blocos).x = x := by
  obtain ⟨h1, h2, h3⟩ := maxResiduo_spec N A b x blocos h
  refine ⟨h2, ?_, rfl, rfl, rfl⟩
  intro hN
  rcases h3 with h0 | hex
  · refine ⟨0, hN, ?_⟩
    have hle := h2 0 hN
    show maxResiduo N A b x blocos = _
    rw [h0] at hle ⊢
    exact le_antisymm (abs_nonneg _) hle
  · exact hex

/-- The residual check on `sistemaDominante` with `x = (1, 1)`, rows handled by two
threads in the order 1, 0: the residuals are 0 and 1 and `max_residuo = 1`. -/
theorem verificar_solucao_norma_witness :
    (verificar_solucao 2 sistemaDominante.A sistemaDominante.b (vecDe [1, 1])
      [[1], [0]]).max_residuo = 1 ∧
    ∃ i, i < 2 ∧ (verificar_solucao 2 sistemaDominante.A sistemaDominante.b (vecDe [1, 1])
      [[1], [0]]).max_residuo =
      |(∑ j in Finset.range 2, sistemaDominante.A i j * vecDe [1, 1] j) - sistemaDominante.b i| :=
  ⟨by decide!,
    (verificar_solucao_norma 2 sistemaDominante.A sistemaDominante.b (vecDe [1, 1])
      [[1], [0]] (by decide)).2.1 (by decide)⟩

/-- C17: residual classification.  `verificar_solucao` reports the class of its
`max_residuo`, and for every `r` the class is "excellent" iff `r < 1e-3`, "good" iff
`1e-3 <= r < 1e-1`, "high residual" iff `r >= 1e-1`; the boundary values `1e-3` and
`1e-1` fall in the worse class. -/
theorem classificar_faixas (r : ℚ) :
    (classificar r = Classe.excelente ↔ r < 1 / 1000) ∧
    (classificar r = Classe.boa ↔ (1 / 1000 ≤ r ∧ r < 1 / 10)) ∧
    (classificar r = Classe.residuo_alto ↔ r ≥ 1 / 10) ∧
    classificar (1 / 1000) = Classe.boa ∧
    classificar (1 / 10) = Classe.residuo_alto ∧
    (∀ (N : Nat) (A : Mat) (b x : Vec) (blocos : List (List Nat)),
      (verificar_solucao N A b x blocos).classe =
        classificar (verificar_solucao N A b x blocos).max_residuo) := by
  have hb1 : classificar (1 / 1000) = Classe.boa := by
    unfold classificar
    norm_num
  have hb2 : classificar (1 / 10) = Classe.residuo_alto := by
    unfold classificar
    norm_num
  refine ⟨?_, ?_, ?_, hb1, hb2, fun _ _ _ _ _ => rfl⟩
  · unfold classificar
    by_cases h1 : r < 1 / 1000
    · simp only [h1, if_true]
    · by_cases h2 : r < 1 / 10
      · simp only [h1, h2, if_true, if_false, iff_false]
        decide
      · simp only [h1, h2, if_false, iff_false]
        decide
  · unfold classificar
    by_cases h1 : r < 1 / 1000
    · simp only [h1, if_true]
      constructor
      · intro h; exact absurd h (by decide)
      · intro h; exact absurd h1 (not_lt.mpr h.1)
    · by_cases h2 : r < 1 / 10
      · simp only [h1, h2, if_true, if_false, true_iff, and_true]
        exact not_lt.mp h1
      · simp only [h1, h2, if_false, and_false, iff_false]
        decide
  · unfold classificar
    by_cases h1 : r < 1 / 1000
    · simp only [h1, if_true]
      constructor
      · intro h; exact absurd h (by decide)
      · intro h
        have : (1 / 1000 : ℚ) < 1 / 10 := by norm_num
        linarith
    · by_cases h2 : r < 1 / 10
      · simp only [h1, h2, if_true, if_false]
        constructor
        · intro h; exact absurd h (by decide)
        · intro h; exact absurd h2 (not_lt.mpr h)
      · simp only [h1, h2, if_false, true_iff]
        exact not_lt.mp h2

/-! ## Fixed points and the residual of an iterate -/

/-- Row `i` of the update returns `x[i]` iff row `i` of `A x = b` holds. -/
theorem linha_fixa_sse (N : Nat) (e : Estado) (i : Nat) (hi : i < N) (hne : e.A i i ≠ 0) :
    (iteracao N e).x_proximo i = e.x_atual i ↔
      (∑ j in Finset.range N, e.A i j * e.x_atual j) = e.b i := by
  rw [iteracao_x_proximo N e i hi, div_eq_iff hne,
    ← Finset.add_sum_erase (Finset.range N) (fun j => e.A i j * e.x_atual j)
      (Finset.mem_range.mpr hi)]
  constructor
  · intro h
    linarith
  · intro h
    linarith

/-- The stopping metric of a pass is 0 iff the pass changed no entry. -/
theorem max_diff_zero_sse (N : Nat) (e : Estado) :
    (iteracao N e).max_diff = 0 ↔ ∀ i, i < N → (iteracao N e).x_proximo i = e.x_atual i := by
  obtain ⟨h1, h2, h3⟩ := iteracao_max_diff_spec N e
  constructor
  · intro h0 i hi
    have hle := h1 i hi
    rw [h0] at hle
    exact sub_eq_zero.mp (abs_nonpos_iff.mp hle)
  · intro hall
    rcases Nat.eq_zero_or_pos N with hN | hN
    · exact h2 hN
    · obtain ⟨i, hi, heq⟩ := h3 hN
      rw [heq, hall i hi, sub_self, abs_zero]

/-- C19: fixed points of the Jacobi pass are exactly the solutions.  For a matrix with
non-zero diagonal, one pass from `x_atual = x` yields `x_proximo = x` on `0 .. N-1` iff
`A x = b`, and equivalently `max_diff = 0` iff `A x = b`. -/
theorem ponto_fixo_sse_solucao (N : Nat) (e : Estado)
    (hdiag : ∀ i, i < N → e.A i i ≠ 0) :
    ((∀ i, i < N → (iteracao N e).x_proximo i = e.x_atual i) ↔
      Resolve N { A := e.A, b := e.b } e.x_atual) ∧
    ((iteracao N e).max_diff = 0 ↔ Resolve N { A := e.A, b := e.b } e.x_atual) := by
  have hfix : (∀ i, i < N → (iteracao N e).x_proximo i = e.x_atual i) ↔
      Resolve N { A := e.A, b := e.b } e.x_atual := by
    unfold Resolve
    constructor
    · intro h i hi
      exact (linha_fixa_sse N e i hi (hdiag i hi)).mp (h i hi)
    · intro h i hi
      exact (linha_fixa_sse N e i hi (hdiag i hi)).mpr (h i hi)
  exact ⟨hfix, (max_diff_zero_sse N e).trans hfix⟩

/-- Witness of C19 on `estadoSolucao`: `x_atual = (4/5, 7/5)` solves `sistemaDominante`
and the pass from it has `max_diff = 0`. -/
theorem ponto_fixo_sse_solucao_witness :
    Resolve 2 { A := estadoSolucao.A, b := estadoSolucao.b } estadoSolucao.x_atual ∧
    (iteracao 2 estadoSolucao).max_diff = 0 :=
  ⟨by decide!,
    (ponto_fixo_sse_solucao 2 estadoSolucao
      (fun i hi => by interval_cases i <;> decide)).2.mpr (by decide!)⟩

theorem maxSomaOff_spec (N : Nat) (A : Mat) :
    (∀ i, i < N → (∑ j in (Finset.range N).erase i, |A i j|) ≤ maxSomaOff N A) ∧
    (N = 0 → maxSomaOff N A = 0) ∧
    (0 < N → ∃ i, i < N ∧ maxSomaOff N A = ∑ j in (Finset.range N).erase i, |A i j|) :=
  foldl_maximo (fun i => ∑ j in (Finset.range N).erase i, |A i j|)
    (fun _ => Finset.sum_nonneg (fun _ _ => abs_nonneg _)) N

theorem maxSomaOff_nonneg (N : Nat) (A : Mat) : 0 ≤ maxSomaOff N A := by
  obtain ⟨_, h2, h3⟩ := maxSomaOff_spec N A
  rcases Nat.eq_zero_or_pos N with h | h
  · rw [h2 h]
  · obtain ⟨i, _, heq⟩ := h3 h
    rw [heq]
    exact Finset.sum_nonneg (fun _ _ => abs_nonneg _)

/-- The residual of the new iterate in row `i`, in terms of the change of the iterate. -/
theorem residuo_do_iterado (N : Nat) (e : Estado) (i : Nat) (hi : i < N)
    (hne : e.A i i ≠ 0) :
    (∑ j in Finset.range N, e.A i j * (iteracao N e).x_atual j) - e.b i =
      ∑ j in (Finset.range N).erase i,
        e.A i j * ((iteracao N e).x_atual j - e.x_atual j) := by
  rw [← Finset.add_sum_erase (Finset.range N) (fun j => e.A i j * (iteracao N e).x_atual j)
    (Finset.mem_range.mpr hi)]
  simp only [mul_sub, Finset.sum_sub_distrib]
  rw [iteracao_x_atual N e i hi, iteracao_x_proximo N e i hi, mul_div_cancel₀ _ hne]
  ring

/-- C20: the stopping metric bounds the verified residual.  For a matrix with non-zero
diagonal the iterate `x` produced by a pass from `x_old` satisfies
`(A x)_i - b[i] = sum over j != i of A[i][j] * (x[j] - x_old[j])` for every `i < N`, and
the `max_residuo` that `verificar_solucao` computes for `x` (under any schedule handing
out every row once) is at most (max over `i` of the sum over `j != i` of `|A[i][j]|`)
times the `max_diff` of that pass. -/
theorem residuo_limitado (N : Nat) (e : Estado) (blocos : List (List Nat))
    (hdiag : ∀ i, i < N → e.A i i ≠ 0) (hpart : blocos.flatten.Perm (List.range N)) :
    (∀ i, i < N →
      (∑ j in Finset.range N, e.A i j * (iteracao N e).x_atual j) - e.b i =
        ∑ j in (Finset.range N).erase i,
          e.A i j * ((iteracao N e).x_atual j - e.x_atual j)) ∧
    (verificar_solucao N (iteracao N e).A (iteracao N e).b (iteracao N e).x_atual
      blocos).max_residuo ≤ maxSomaOff N e.A * (iteracao N e).max_diff := by
  refine ⟨fun i hi => residuo_do_iterado N e i hi (hdiag i hi), ?_⟩
  have hmd := iteracao_max_diff_nonneg N e
  obtain ⟨_, _, h3⟩ := maxResiduo_spec N (iteracao N e).A (iteracao N e).b
    (iteracao N e).x_atual blocos hpart
  show maxResiduo N (iteracao N e).A (iteracao N e).b (iteracao N e).x_atual blocos ≤ _
  rcases h3 with h0 | ⟨i, hi, heq⟩
  · rw [h0]
    exact mul_nonneg (maxSomaOff_nonneg N e.A) hmd
  · rw [heq]
    have hA : (iteracao N e).A = e.A := rfl
    have hb : (iteracao N e).b = e.b := rfl
    rw [hA, hb, residuo_do_iterado N e i hi (hdiag i hi)]
    calc |∑ j in (Finset.range N).erase i,
            e.A i j * ((iteracao N e).x_atual j - e.x_atual j)|
        ≤ ∑ j in (Finset.range N).erase i,
            |e.A i j * ((iteracao N e).x_atual j - e.x_atual j)| :=
          Finset.abs_sum_le_sum_abs _ _
      _ ≤ ∑ j in (Finset.range N).erase i, |e.A i j| * (iteracao N e).max_diff := by
          apply Finset.sum_le_sum
          intro j hj
          have hjN : j < N := Finset.mem_range.mp (Finset.mem_of_mem_erase hj)
          rw [abs_mul, iteracao_x_atual N e j hjN]
          exact mul_le_mul_of_nonneg_left ((iteracao_max_diff_spec N e).1 j hjN)
            (abs_nonneg _)
      _ = (∑ j in (Finset.range N).erase i, |e.A i j|) * (iteracao N e).max_diff := by
          rw [Finset.sum_mul]
      _ ≤ maxSomaOff N e.A * (iteracao N e).max_diff :=
          mul_le_mul_of_nonneg_right ((maxSomaOff_spec N e.A).1 i hi) hmd

/-- Witness of C20 on `sistemaDominante`, first pass from zero: `max_diff = 5/3`, the
largest off-diagonal row sum is 1 and `max_residuo = 5/3`. -/
theorem residuo_limitado_witness :
    ((verificar_solucao 2 sistemaDominante.A sistemaDominante.b
        (iteracao 2 (estadoInicial 2 sistemaDominante (vecDe []) (vecDe []) 0)).x_atual
        [[0], [1]]).max_residuo = 5 / 3 ∧
      maxSomaOff 2 sistemaDominante.A = 1 ∧
      (iteracao 2 (estadoInicial 2 sistemaDominante (vecDe []) (vecDe []) 0)).max_diff
        = 5 / 3) ∧
    (verificar_solucao 2
        (iteracao 2 (estadoInicial 2 sistemaDominante (vecDe []) (vecDe []) 0)).A
        (iteracao 2 (estadoInicial 2 sistemaDominante (vecDe []) (vecDe []) 0)).b
        (iteracao 2 (estadoInicial 2 sistemaDominante (vecDe []) (vecDe []) 0)).x_atual
        [[0], [1]]).max_residuo ≤
      maxSomaOff 2 (estadoInicial 2 sistemaDominante (vecDe []) (vecDe []) 0).A *
        (iteracao 2 (estadoInicial 2 sistemaDominante (vecDe []) (vecDe []) 0)).max_diff :=
  ⟨⟨by decide!, by decide!, by decide!⟩,
    (residuo_limitado 2 (estadoInicial 2 sistemaDominante (vecDe []) (vecDe []) 0)
      [[0], [1]] (fun i hi => by interval_cases i <;> decide) (by decide)).2⟩

/-! ## The continuation gate -/

theorem dblGt_nao_nan (a b : Dbl) (h : dblGt a b = true) : a ≠ Dbl.nan ∧ b ≠ Dbl.nan := by
  cases a <;> cases b <;> simp [dblGt] at h ⊢

theorem dblGe_nao_nan (a b : Dbl) (h : dblGe a b = true) : a ≠ Dbl.nan ∧ b ≠ Dbl.nan := by
  cases a <;> cases b <;> simp [dblGe] at h ⊢

theorem dblGe_de_gt (a b : Dbl) (h : dblGt a b = true) : dblGe a b = true := by
  cases a <;> cases b <;> simp [dblGt, dblGe] at h ⊢
  exact le_of_lt h

theorem dblGe_de_nao_gt (a b : Dbl) (ha : a ≠ Dbl.nan) (hb : b ≠ Dbl.nan)
    (h : ¬ dblGt a b = true) : dblGe b a = true := by
  cases a <;> cases b <;> simp [dblGt, dblGe] at h ha hb ⊢
  exact h

theorem dblGe_refl (a : Dbl) (ha : a ≠ Dbl.nan) : dblGe a a = true := by
  cases a <;> simp [dblGe] at ha ⊢

theorem dblGe_trans (a b c : Dbl) (h1 : dblGe a b = true) (h2 : dblGe b c = true) :
    dblGe a c = true := by
  cases a <;> cases b <;> cases c <;> simp [dblGe] at h1 h2 ⊢
  exact le_trans h2 h1

theorem dblGe_antisymm (a b : Dbl) (h1 : dblGe a b = true) (h2 : dblGe b a = true) :
    a = b := by
  cases a <;> cases b <;> simp [dblGe] at h1 h2 ⊢
  exact le_antisymm h2 h1

theorem dblFabs_nonneg (a : Dbl) (h : dblFabs a ≠ Dbl.nan) :
    dblGe (dblFabs a) (Dbl.fin 0) = true := by
  cases a <;> simp [dblFabs, dblGe] at h ⊢

/-- The running maximum of the source on doubles, from a start `a` that is not NaN: it
is never NaN, it is at least `a` and every value of the list that is not NaN, and it is
`a` or one of the values. -/
theorem foldl_maxD {α : Type} (w : α → Dbl) (l : List α) :
    ∀ a : Dbl, a ≠ Dbl.nan →
      l.foldl (fun (acc : Dbl) (t : α) => if dblGt (w t) acc then w t else acc) a ≠ Dbl.nan ∧
      dblGe (l.foldl (fun (acc : Dbl) (t : α) => if dblGt (w t) acc then w t else acc) a) a
        = true ∧
      (∀ t, t ∈ l → w t ≠ Dbl.nan →
        dblGe (l.foldl (fun (acc : Dbl) (t : α) => if dblGt (w t) acc then w t else acc) a)
          (w t) = true) ∧
      (l.foldl (fun (acc : Dbl) (t : α) => if dblGt (w t) acc then w t else acc) a = a ∨
        ∃ t, t ∈ l ∧
          l.foldl (fun (acc : Dbl) (t : α) => if dblGt (w t) acc then w t else acc) a = w t) := by
  induction l with
  | nil =>
    intro a ha
    exact ⟨ha, dblGe_refl a ha, fun t ht => absurd ht (List.not_mem_nil t), Or.inl rfl⟩
  | cons x l ih =>
    intro a ha
    rw [List.foldl_cons]
    have hstep : (if dblGt (w x) a then w x else a) ≠ Dbl.nan ∧
        dblGe (if dblGt (w x) a then w x else a) a = true ∧
        (w x ≠ Dbl.nan → dblGe (if dblGt (w x) a then w x else a) (w x) = true) := by
      by_cases hc : dblGt (w x) a = true
      · rw [if_pos hc]
        exact ⟨(dblGt_nao_nan _ _ hc).1, dblGe_de_gt _ _ hc,
          fun hx => dblGe_refl _ hx⟩
      · rw [if_neg hc]
        exact ⟨ha, dblGe_refl a ha, fun hx => dblGe_de_nao_gt _ _ hx ha hc⟩
    obtain ⟨h1, h2, h3, h4⟩ := ih (if dblGt (w x) a then w x else a) hstep.1
    refine ⟨h1, dblGe_trans _ _ _ h2 hstep.2.1, ?_, ?_⟩
    · intro t ht hnan
      rcases List.mem_cons.mp ht with h | h
      · rw [h] at hnan ⊢
        exact dblGe_trans _ _ _ h2 (hstep.2.2 hnan)
      · exact h3 t h hnan
    · rcases h4 with h | ⟨t, ht, heq⟩
      · by_cases hc : dblGt (w x) a = true
        · right
          refine ⟨x, List.mem_cons_self x l, ?_⟩
          rw [h, if_pos hc]
        · left
          rw [h, if_neg hc]
      · exact Or.inr ⟨t, List.mem_cons_of_mem x ht, heq⟩

/-- The stopping-metric loop on doubles. -/
theorem calcularMaxDiffD_spec (ar : Aritmetica) (N : Nat) (xp xa : VecD) :
    calcularMaxDiffD ar N xp xa ≠ Dbl.nan ∧
    (∀ i, i < N → dblFabs (ar.sub (xp i) (xa i)) ≠ Dbl.nan →
      dblGe (calcularMaxDiffD ar N xp xa) (dblFabs (ar.sub (xp i) (xa i))) = true) ∧
    (calcularMaxDiffD ar N xp xa = Dbl.fin 0 ∨
      ∃ i, i < N ∧ calcularMaxDiffD ar N xp xa = dblFabs (ar.sub (xp i) (xa i))) := by
  obtain ⟨h1, _, h3, h4⟩ := foldl_maxD (fun i => dblFabs (ar.sub (xp i) (xa i)))
    (List.range N) (Dbl.fin 0) (by simp)
  refine ⟨h1, ?_, ?_⟩
  · intro i hi hnan
    exact h3 i (List.mem_range.mpr hi) hnan
  · rcases h4 with h | ⟨i, hi, heq⟩
    · exact Or.inl h
    · exact Or.inr ⟨i, List.mem_range.mp hi, heq⟩

/-- A maximum that is `0`, over values `fabs(..)` none of which is NaN, is attained by
each of them that it bounds: used to find an index when the loop ends at 0. -/
theorem zero_atingido (R d : Dbl) (hR : R = Dbl.fin 0) (hge : dblGe R d = true)
    (hd : ∃ y, d = dblFabs y) : R = d := by
  obtain ⟨y, rfl⟩ := hd
  have hnn := dblFabs_nonneg y (dblGe_nao_nan _ _ hge).2
  rw [hR] at hge ⊢
  exact dblGe_antisymm _ _ hge hnn

/-- On finite values and without rounding, the stopping-metric loop on doubles computes
the value of the loop on rationals. -/
theorem calcularMaxDiffD_finito (N : Nat) (xp xa : Vec) :
    calcularMaxDiffD aritExata N (vecD xp) (vecD xa) = Dbl.fin (calcularMaxDiff N xp xa) := by
  unfold calcularMaxDiffD calcularMaxDiff
  generalize (0 : ℚ) = a
  induction (List.range N) generalizing a with
  | nil => rfl
  | cons i l ih =>
    rw [List.foldl_cons, List.foldl_cons]
    have hstep : (if dblGt (dblFabs (aritExata.sub (vecD xp i) (vecD xa i))) (Dbl.fin a) = true
        then dblFabs (aritExata.sub (vecD xp i) (vecD xa i)) else Dbl.fin a) =
        Dbl.fin (if |xp i - xa i| > a then |xp i - xa i| else a) := by
      have hd : dblFabs (aritExata.sub (vecD xp i) (vecD xa i)) = Dbl.fin |xp i - xa i| := by
        simp only [aritExata, vecD, dblNeg, dblSoma, dblFabs, sub_eq_add_neg]
      rw [hd]
      by_cases hc : |xp i - xa i| > a
      · simp [dblGt, hc]
      · simp [dblGt, hc]
    simp only at hstep ⊢
    rw [hstep]
    exact ih _

/-- C10 fails on the code: on the 6x6 identity system with `A[5][5] = 0` the first pass
gives `x = (1, 1, 1, 1, 1, inf)` and `max_diff = inf`, so the body is repeated; the
second pass changes `x[0]` from 1 to NaN, every difference `|x_proximo[i] - x_atual[i]|`
is a NaN, and `max_diff` is 0: it is not `>=` the difference of row 0 and it equals the
difference of no row. -/
theorem max_diff_ignora_nan :
    (iteracaoD aritExata 6 estadoDiagonalNula).max_diff = Dbl.pinf ∧
    controleD MAX_ITERACOES (Dbl.fin TOLERANCIA) (iteracaoD aritExata 6 estadoDiagonalNula)
      = Controle.repete ∧
    (iteracaoD aritExata 6 estadoDiagonalNula).x_atual 0 = Dbl.fin 1 ∧
    (iteracaoD aritExata 6 (iteracaoD aritExata 6 estadoDiagonalNula)).x_proximo 0
      = Dbl.nan ∧
    (iteracaoD aritExata 6 (iteracaoD aritExata 6 estadoDiagonalNula)).max_diff
      = Dbl.fin 0 ∧
    dblGe (iteracaoD aritExata 6 (iteracaoD aritExata 6 estadoDiagonalNula)).max_diff
      (dblFabs (aritExata.sub
        ((iteracaoD aritExata 6 (iteracaoD aritExata 6 estadoDiagonalNula)).x_proximo 0)
        ((iteracaoD aritExata 6 estadoDiagonalNula).x_atual 0))) = false ∧
    (∀ i, i < 6 →
      dblFabs (aritExata.sub
        ((iteracaoD aritExata 6 (iteracaoD aritExata 6 estadoDiagonalNula)).x_proximo i)
        ((iteracaoD aritExata 6 estadoDiagonalNula).x_atual i)) = Dbl.nan) := by
  refine ⟨by decide!, by decide!, by decide!, by decide!, by decide!, by decide!, ?_⟩
  intro i hi
  interval_cases i <;> decide!

/-- C10 as amended: the stopping metric is the maximum of the differences that are not
NaN.  After a pass, whatever the machine operations round to, `max_diff` is not a NaN;
it is `>=` the computed `|x_proximo[i] - x_atual_old[i]|` for every `i < N` for which
that value is not a NaN; when `N > 0` and no such value is a NaN it equals one of them;
in every case it is 0 or one of them; and it is 0 when `N = 0` and when every such value
is 0 or a NaN.  It is measured against the iterate from before the copy. -/
theorem iteracaoD_max_diff (ar : Aritmetica) (N : Nat) (e : EstadoD) :
    (iteracaoD ar N e).max_diff ≠ Dbl.nan ∧
    (∀ i, i < N →
      dblFabs (ar.sub ((iteracaoD ar N e).x_proximo i) (e.x_atual i)) ≠ Dbl.nan →
      dblGe (iteracaoD ar N e).max_diff
        (dblFabs (ar.sub ((iteracaoD ar N e).x_proximo i) (e.x_atual i))) = true) ∧
    (0 < N →
      (∀ i, i < N →
        dblFabs (ar.sub ((iteracaoD ar N e).x_proximo i) (e.x_atual i)) ≠ Dbl.nan) →
      ∃ i, i < N ∧ (iteracaoD ar N e).max_diff =
        dblFabs (ar.sub ((iteracaoD ar N e).x_proximo i) (e.x_atual i))) ∧
    ((iteracaoD ar N e).max_diff = Dbl.fin 0 ∨
      ∃ i, i < N ∧ (iteracaoD ar N e).max_diff =
        dblFabs (ar.sub ((iteracaoD ar N e).x_proximo i) (e.x_atual i))) ∧
    (N = 0 → (iteracaoD ar N e).max_diff = Dbl.fin 0) ∧
    ((∀ i, i < N →
        dblFabs (ar.sub ((iteracaoD ar N e).x_proximo i) (e.x_atual i)) = Dbl.fin 0 ∨
        dblFabs (ar.sub ((iteracaoD ar N e).x_proximo i) (e.x_atual i)) = Dbl.nan) →
      (iteracaoD ar N e).max_diff = Dbl.fin 0) := by
  obtain ⟨h1, h2, h3⟩ := calcularMaxDiffD_spec ar N
    (calcularProximoD ar N e.A e.b e.x_atual e.x_proximo) e.x_atual
  refine ⟨h1, h2, ?_, h3, ?_, ?_⟩
  · intro hN hall
    rcases h3 with h0 | hex
    · exact ⟨0, hN, zero_atingido _ _ h0 (h2 0 hN (hall 0 hN)) ⟨_, rfl⟩⟩
    · exact hex
  · intro hN
    rcases h3 with h0 | ⟨i, hi, _⟩
    · exact h0
    · omega
  · intro hall
    rcases h3 with h0 | ⟨i, hi, heq⟩
    · exact h0
    · rcases hall i hi with hz | hn
      · exact heq.trans hz
      · exact absurd (heq.trans hn) h1

/-! ## Residual verification on doubles -/

theorem maxLocalD_spec (ar : Aritmetica) (N : Nat) (A : MatD) (b x : VecD)
    (bloco : List Nat) :
    maxLocalD ar N A b x bloco ≠ Dbl.nan ∧
    (∀ i, i ∈ bloco → residuoD ar N A b x i ≠ Dbl.nan →
      dblGe (maxLocalD ar N A b x bloco) (residuoD ar N A b x i) = true) ∧
    (maxLocalD ar N A b x bloco = Dbl.fin 0 ∨
      ∃ i, i ∈ bloco ∧ maxLocalD ar N A b x bloco = residuoD ar N A b x i) := by
  obtain ⟨h1, _, h3, h4⟩ := foldl_maxD (fun i => residuoD ar N A b x i) bloco
    (Dbl.fin 0) (by simp)
  exact ⟨h1, h3, h4⟩

/-- Under a schedule that hands out every row index, `max_residuo` on doubles is never a
NaN, bounds every row residual that is not a NaN, and is 0 or the residual of a row. -/
theorem maxResiduoD_spec (ar : Aritmetica) (N : Nat) (A : MatD) (b x : VecD)
    (blocos : List (List Nat)) (h : blocos.flatten.Perm (List.range N)) :
    maxResiduoD ar N A b x blocos ≠ Dbl.nan ∧
    (∀ i, i < N → residuoD ar N A b x i ≠ Dbl.nan →
      dblGe (maxResiduoD ar N A b x blocos) (residuoD ar N A b x i) = true) ∧
    (maxResiduoD ar N A b x blocos = Dbl.fin 0 ∨
      ∃ i, i < N ∧ maxResiduoD ar N A b x blocos = residuoD ar N A b x i) := by
  obtain ⟨h1, _, h3, h4⟩ := foldl_maxD (fun bloco => maxLocalD ar N A b x bloco) blocos
    (Dbl.fin 0) (by simp)
  refine ⟨h1, ?_, ?_⟩
  · intro i hi hnan
    obtain ⟨bl, hbl, hib⟩ := List.mem_flatten.mp (h.mem_iff.mpr (List.mem_range.mpr hi))
    exact dblGe_trans _ _ _ (h3 bl hbl (maxLocalD_spec ar N A b x bl).1)
      ((maxLocalD_spec ar N A b x bl).2.1 i hib hnan)
  · rcases h4 with h0 | ⟨bl, hbl, heq⟩
    · exact Or.inl h0
    · rcases (maxLocalD_spec ar N A b x bl).2.2 with hz | ⟨i, hi, hv⟩
      · exact Or.inl (heq.trans hz)
      · right
        exact ⟨i, List.mem_range.mp (h.mem_iff.mp (List.mem_flatten.mpr ⟨bl, hbl, hi⟩)),
          heq.trans hv⟩

/-- C16 fails on the code: on the 6x6 identity system with `A[5][5] = 0` the loop is left
after the second pass (`max_diff = 0`) with `x = (NaN, NaN, NaN, NaN, NaN, inf)`; every
row residual `|(A x)_i - b[i]|` is then a NaN, and `verificar_solucao` reports
`max_residuo = 0` and the message of excellent precision: `max_residuo` is not `>=` the
residual of row 0 and equals the residual of no row. -/
theorem residuo_ignora_nan :
    controleD MAX_ITERACOES (Dbl.fin TOLERANCIA)
      (iteracaoD aritExata 6 (iteracaoD aritExata 6 estadoDiagonalNula))
      = Controle.termina ∧
    (verificar_solucaoD aritExata 6 (matD sistemaDiagonalNula.A) (vecD sistemaDiagonalNula.b)
      (iteracaoD aritExata 6 (iteracaoD aritExata 6 estadoDiagonalNula)).x_atual
      [[0], [1], [2], [3], [4], [5], [], []]).max_residuo = Dbl.fin 0 ∧
    (verificar_solucaoD aritExata 6 (matD sistemaDiagonalNula.A) (vecD sistemaDiagonalNula.b)
      (iteracaoD aritExata 6 (iteracaoD aritExata 6 estadoDiagonalNula)).x_atual
      [[0], [1], [2], [3], [4], [5], [], []]).classe = Classe.excelente ∧
    dblGe (verificar_solucaoD aritExata 6 (matD sistemaDiagonalNula.A)
        (vecD sistemaDiagonalNula.b)
        (iteracaoD aritExata 6 (iteracaoD aritExata 6 estadoDiagonalNula)).x_atual
        [[0], [1], [2], [3], [4], [5], [], []]).max_residuo
      (residuoD aritExata 6 (matD sistemaDiagonalNula.A) (vecD sistemaDiagonalNula.b)
        (iteracaoD aritExata 6 (iteracaoD aritExata 6 estadoDiagonalNula)).x_atual 0)
      = false ∧
    (∀ i, i < 6 →
      residuoD aritExata 6 (matD sistemaDiagonalNula.A) (vecD sistemaDiagonalNula.b)
        (iteracaoD aritExata 6 (iteracaoD aritExata 6 estadoDiagonalNula)).x_atual i
        = Dbl.nan) := by
  refine ⟨by decide!, by decide!, by decide!, by decide!, ?_⟩
  intro i hi
  interval_cases i <;> decide!

/-- C16 as amended: `verificar_solucao` computes the maximum of the row residuals that
are not NaN.  Under any schedule that hands out every row index once and whatever the
machine operations round to, `max_residuo` is not a NaN; it is `>=` the computed
`|(A x)_i - b[i]|` for every `i < N` for which that value is not a NaN; when `N > 0` and
no such value is a NaN it equals one of them; in every case it is 0 or one of them.  The
row sum `(A x)_i` is accumulated over every `j`, the term `j = i` included, and `A`, `b`,
`x` are as before the call. -/
theorem verificar_solucaoD_norma (ar : Aritmetica) (N : Nat) (A : MatD) (b x : VecD)
    (blocos : List (List Nat)) (h : blocos.flatten.Perm (List.range N)) :
    (verificar_solucaoD ar N A b x blocos).max_residuo ≠ Dbl.nan ∧
    (∀ i, i < N → residuoD ar N A b x i ≠ Dbl.nan →
      dblGe (verificar_solucaoD ar N A b x blocos).max_residuo (residuoD ar N A b x i)
        = true) ∧
    (0 < N → (∀ i, i < N → residuoD ar N A b x i ≠ Dbl.nan) →
      ∃ i, i < N ∧
        (verificar_solucaoD ar N A b x blocos).max_residuo = residuoD ar N A b x i) ∧
    ((verificar_solucaoD ar N A b x blocos).max_residuo = Dbl.fin 0 ∨
      ∃ i, i < N ∧
        (verificar_solucaoD ar N A b x blocos).max_residuo = residuoD ar N A b x i) ∧
    (∀ i, residuoD ar N A b x i =
      dblFabs (ar.sub
        ((List.range N).foldl
          (fun (soma : Dbl) (j : Nat) => ar.soma soma (ar.mul (A i j) (x j))) (Dbl.fin 0))
        (b i))) ∧
    (verificar_solucaoD ar N A b x blocos).A = A ∧
    (verificar_solucaoD ar N A b x blocos).b = b ∧
    (verificar_solucaoD ar N A b x blocos).x = x := by
  obtain ⟨h1, h2, h3⟩ := maxResiduoD_spec ar N A b x blocos h
  refine ⟨h1, h2, ?_, h3, fun _ => rfl, rfl, rfl, rfl⟩
  intro hN hall
  rcases h3 with h0 | hex
  · exact ⟨0, hN, zero_atingido _ _ h0 (h2 0 hN (hall 0 hN)) ⟨_, rfl⟩⟩
  · exact hex

/-- Witness of the amended C16 on `sistemaDominante` with `x = (1, 1)`, rows handled by
two threads in the order 1, 0, without rounding: the residuals are 0 and 1 and
`max_residuo = 1`. -/
theorem verificar_solucaoD_norma_witness :
    (verificar_solucaoD aritExata 2 (matD sistemaDominante.A) (vecD sistemaDominante.b)
      (vecD (vecDe [1, 1])) [[1], [0]]).max_residuo = Dbl.fin 1 ∧
    dblGe (verificar_solucaoD aritExata 2 (matD sistemaDominante.A)
      (vecD sistemaDominante.b) (vecD (vecDe [1, 1])) [[1], [0]]).max_residuo
      (residuoD aritExata 2 (matD sistemaDominante.A) (vecD sistemaDominante.b)
        (vecD (vecDe [1, 1])) 1) = true :=
  ⟨by decide!,
    (verificar_solucaoD_norma aritExata 2 (matD sistemaDominante.A)
      (vecD sistemaDominante.b) (vecD (vecDe [1, 1])) [[1], [0]] (by decide)).2.1 1
      (by decide) (by decide!)⟩

end Jacobi
